import Mathlib

/-!
Verification of the core of `s3_lifecycle_manager`: the rule normalizer
(`manager.py` / `lifecycle_policy.py`) and the backup/restore manager
(`backup_manager.py`).

The backup manager serializes raw rule sequences with Python's
`json.dump(rules, file, ensure_ascii=False, indent=4)` and reads them back
with `json.load`.  We embed the JSON documents the tool handles as the type
`Json` below (objects, arrays, strings, arbitrary-precision integers,
booleans, null; JSON floats do not occur in lifecycle rules and are outside
the model), implement the indented serializer and the parser over `List Char`,
and prove the parse-of-print round trip that the backup/restore cycle
depends on.

The filesystem under the backup directory is modelled as an association
list from file name to file content; environmental I/O faults (an `IOError`
on an existing file) are outside the model, so a read of a present file
always yields its content and a write always succeeds.
-/

/-! ## Characters and digits -/

/-- The whitespace characters JSON (and Python's `json` module) skips. -/
def isWsChar (c : Char) : Bool :=
  c = ' ' || c = '\t' || c = '\n' || c = '\r'

/-- Drop leading JSON whitespace. -/
def skipWs : List Char → List Char
  | [] => []
  | c :: cs => if isWsChar c then skipWs cs else c :: cs

/-- Decimal digit test, as the JSON number grammar uses it. -/
def isDigitChar (c : Char) : Bool :=
  48 ≤ c.toNat && c.toNat ≤ 57

/-- The decimal digit characters. -/
def digitChar : Nat → Char
  | 0 => '0' | 1 => '1' | 2 => '2' | 3 => '3' | 4 => '4'
  | 5 => '5' | 6 => '6' | 7 => '7' | 8 => '8' | _ => '9'

/-- Lowercase hexadecimal digit characters, as Python's `'\\u%04x'` emits them. -/
def hexDigitChar : Nat → Char
  | 0 => '0' | 1 => '1' | 2 => '2' | 3 => '3' | 4 => '4'
  | 5 => '5' | 6 => '6' | 7 => '7' | 8 => '8' | 9 => '9'
  | 10 => 'a' | 11 => 'b' | 12 => 'c' | 13 => 'd' | 14 => 'e' | _ => 'f'

/-- Numeric value of a decimal digit character. -/
def digitVal (c : Char) : Nat := c.toNat - 48

/-- Decimal digits of `n`, most significant first, in front of `acc`.
The fuel argument only bounds the recursion; `n + 1` digits always suffice. -/
def natToCharsAux : Nat → Nat → List Char → List Char
  | 0, _, acc => acc
  | fuel + 1, n, acc =>
    if n < 10 then digitChar n :: acc
    else natToCharsAux fuel (n / 10) (digitChar (n % 10) :: acc)

/-- Decimal rendering of a natural number, as Python's `str` writes it. -/
def natToChars (n : Nat) : List Char :=
  natToCharsAux (n + 1) n []

/-- Decimal rendering of an integer, as Python's `str` writes it. -/
def intToChars : Int → List Char
  | Int.ofNat n => natToChars n
  | Int.negSucc m => '-' :: natToChars (m + 1)

/-- One character of a JSON string rendered by Python's `json.dump` with
`ensure_ascii=False`: backslash, quote and the named control characters get
two-character escapes, the remaining control characters get `\u00xx`, and
everything else (non-ASCII included) is written as itself. -/
def escapeChar (c : Char) : List Char :=
  if c = '\\' then ['\\', '\\']
  else if c = '"' then ['\\', '"']
  else if c = '\n' then ['\\', 'n']
  else if c = '\t' then ['\\', 't']
  else if c = '\r' then ['\\', 'r']
  else if c.toNat = 8 then ['\\', 'b']
  else if c.toNat = 12 then ['\\', 'f']
  else if c.toNat < 32 then
    ['\\', 'u', '0', '0', hexDigitChar (c.toNat / 16), hexDigitChar (c.toNat % 16)]
  else [c]

/-- Escape a whole string body. -/
def escapeChars : List Char → List Char
  | [] => []
  | c :: cs => escapeChar c ++ escapeChars cs

/-- An indentation run, `lvl` spaces. -/
def indentChars (lvl : Nat) : List Char :=
  List.replicate lvl ' '

/-! ## The JSON documents the backup files hold -/

/-- A JSON value: the top-level shape of a backup file is `arr` of rule
objects, but nothing in `backup_manager.py` inspects the rules it moves, so
the whole value space is modelled.  Object fields keep their written order,
as Python dicts do. -/
inductive Json where
  | null : Json
  | bool (b : Bool) : Json
  | num (n : Int) : Json
  | str (s : String) : Json
  | arr (elems : List Json) : Json
  | obj (fields : List (String × Json)) : Json

mutual

/-- Boolean equality of JSON values; the nested `List` positions keep the
deriving handler from producing it, so the recursion is written out. -/
def jsonEqb : Json → Json → Bool
  | Json.null, Json.null => true
  | Json.bool a, Json.bool b => a == b
  | Json.num a, Json.num b => a == b
  | Json.str a, Json.str b => a == b
  | Json.arr a, Json.arr b => jsonEqbList a b
  | Json.obj a, Json.obj b => jsonEqbFields a b
  | _, _ => false

def jsonEqbList : List Json → List Json → Bool
  | [], [] => true
  | a :: as1, b :: bs1 => jsonEqb a b && jsonEqbList as1 bs1
  | _, _ => false

def jsonEqbFields : List (String × Json) → List (String × Json) → Bool
  | [], [] => true
  | a :: as1, b :: bs1 => a.1 == b.1 && jsonEqb a.2 b.2 && jsonEqbFields as1 bs1
  | _, _ => false

end

mutual

theorem jsonEqb_correct : ∀ a b : Json, jsonEqb a b = true ↔ a = b := fun a b => by
  cases a with
  | null => cases b <;> simp [jsonEqb]
  | bool x => cases b <;> simp [jsonEqb]
  | num x => cases b <;> simp [jsonEqb]
  | str x => cases b <;> simp [jsonEqb]
  | arr x =>
    cases b <;> simp [jsonEqb]
    rename_i y
    exact jsonEqbList_correct x y
  | obj x =>
    cases b <;> simp [jsonEqb]
    rename_i y
    exact jsonEqbFields_correct x y
termination_by a b => sizeOf a

theorem jsonEqbList_correct : ∀ as1 bs1 : List Json,
    jsonEqbList as1 bs1 = true ↔ as1 = bs1 := fun as1 bs1 => by
  cases as1 with
  | nil => cases bs1 <;> simp [jsonEqbList]
  | cons a at1 =>
    cases bs1 with
    | nil => simp [jsonEqbList]
    | cons b bt1 =>
      simp [jsonEqbList, jsonEqb_correct a b, jsonEqbList_correct at1 bt1]
termination_by as1 bs1 => sizeOf as1

theorem jsonEqbFields_correct : ∀ as1 bs1 : List (String × Json),
    jsonEqbFields as1 bs1 = true ↔ as1 = bs1 := fun as1 bs1 => by
  cases as1 with
  | nil => cases bs1 <;> simp [jsonEqbFields]
  | cons a at1 =>
    cases bs1 with
    | nil => simp [jsonEqbFields]
    | cons b bt1 =>
      obtain ⟨ak, av⟩ := a
      obtain ⟨bk, bv⟩ := b
      simp [jsonEqbFields, jsonEqb_correct av bv, jsonEqbFields_correct at1 bt1,
        Prod.ext_iff]
termination_by as1 bs1 => sizeOf as1

end

instance : DecidableEq Json := fun a b =>
  decidable_of_iff (jsonEqb a b = true) (jsonEqb_correct a b)

/-! ## Serializer: `json.dump(v, file, ensure_ascii=False, indent=4)` -/

mutual

/-- Serialize one value at indentation level `lvl` (a number of spaces; the
source always dumps with `indent=4`, so nesting adds four). -/
def serVal (lvl : Nat) : Json → List Char
  | Json.null => ['n', 'u', 'l', 'l']
  | Json.bool true => ['t', 'r', 'u', 'e']
  | Json.bool false => ['f', 'a', 'l', 's', 'e']
  | Json.num n => intToChars n
  | Json.str s => '"' :: (escapeChars s.data ++ ['"'])
  | Json.arr [] => ['[', ']']
  | Json.arr (x :: xs) =>
    '[' :: '\n' :: (indentChars (lvl + 4) ++ serVal (lvl + 4) x
      ++ serArrRest (lvl + 4) xs ++ '\n' :: (indentChars lvl ++ [']']))
  | Json.obj [] => ['\x7b', '\x7d']
  | Json.obj (kv :: fs) =>
    '\x7b' :: '\n' :: (indentChars (lvl + 4) ++ serField (lvl + 4) kv
      ++ serObjRest (lvl + 4) fs ++ '\n' :: (indentChars lvl ++ ['\x7d']))

/-- Serialize one object member, `"key": value`. -/
def serField (lvl : Nat) : String × Json → List Char
  | (k, v) => '"' :: (escapeChars k.data ++ '"' :: ':' :: ' ' :: serVal lvl v)

/-- Serialize the second and later array elements, each after `,\n` and its
indentation. -/
def serArrRest (lvl : Nat) : List Json → List Char
  | [] => []
  | x :: xs => ',' :: '\n' :: (indentChars lvl ++ serVal lvl x ++ serArrRest lvl xs)

/-- Serialize the second and later object members. -/
def serObjRest (lvl : Nat) : List (String × Json) → List Char
  | [] => []
  | kv :: fs => ',' :: '\n' :: (indentChars lvl ++ serField lvl kv ++ serObjRest lvl fs)

end

/-- The text `json.dump(v, file, ensure_ascii=False, indent=4)` writes. -/
def json_dumps (v : Json) : String :=
  String.mk (serVal 0 v)

/-! ## Parser: `json.load` restricted to the documents of the model

The parser mirrors Python's `json.load` on the float-free fragment: it skips
the same whitespace, demands the same punctuation, decodes the same string
escapes, and `json_loads` below insists, as `json.loads` does, that nothing
but whitespace follow the document.  Number syntax keeps the JSON rule that
a leading `0` is a complete integer part. -/

/-- Strip an expected literal (`ull` after `n`, and the like). -/
def stripLit : List Char → List Char → Option (List Char)
  | [], cs => some cs
  | _ :: _, [] => none
  | l :: ls, c :: cs => if c = l then stripLit ls cs else none

/-- Hexadecimal digit value, upper or lower case. -/
def hexVal (c : Char) : Option Nat :=
  if 48 ≤ c.toNat ∧ c.toNat ≤ 57 then some (c.toNat - 48)
  else if 97 ≤ c.toNat ∧ c.toNat ≤ 102 then some (c.toNat - 87)
  else if 65 ≤ c.toNat ∧ c.toNat ≤ 70 then some (c.toNat - 55)
  else none

/-- Two-character string escapes. -/
def unescChar (e : Char) : Option Char :=
  if e = '"' then some '"'
  else if e = '\\' then some '\\'
  else if e = '/' then some '/'
  else if e = 'b' then some '\x08'
  else if e = 'f' then some '\x0c'
  else if e = 'n' then some '\n'
  else if e = 'r' then some '\r'
  else if e = 't' then some '\t'
  else none

/-- Read a string body up to and past the closing quote, decoding escapes;
bare control characters are refused, as `json.load`'s strict mode refuses
them. -/
def parseStrBody : List Char → Option (List Char × List Char)
  | [] => none
  | c :: cs =>
    if c = '"' then some ([], cs)
    else if c = '\\' then
      match cs with
      | [] => none
      | e :: cs' =>
        if e = 'u' then
          match cs' with
          | h1 :: h2 :: h3 :: h4 :: cs'' =>
            match hexVal h1, hexVal h2, hexVal h3, hexVal h4 with
            | some a, some b, some c1, some d =>
              match parseStrBody cs'' with
              | some (s, r) => some (Char.ofNat (((a * 16 + b) * 16 + c1) * 16 + d) :: s, r)
              | none => none
            | _, _, _, _ => none
          | _ => none
        else
          match unescChar e with
          | none => none
          | some c' =>
            match parseStrBody cs' with
            | some (s, r) => some (c' :: s, r)
            | none => none
    else if c.toNat < 32 then none
    else
      match parseStrBody cs with
      | some (s, r) => some (c :: s, r)
      | none => none

/-- Fold decimal digit characters onto an accumulator. -/
def charsVal (a : Nat) (ds : List Char) : Nat :=
  ds.foldl (fun acc c => acc * 10 + digitVal c) a

/-- Split off the longest leading run of decimal digits. -/
def takeDigits : List Char → List Char × List Char
  | [] => ([], [])
  | c :: cs =>
    if isDigitChar c then
      match takeDigits cs with
      | (ds, r) => (c :: ds, r)
    else ([], c :: cs)

/-- Read a natural number: `0` alone, or a nonzero digit followed by the
longest run of digits, exactly the integer part of the JSON number grammar. -/
def parseNat : List Char → Option (Nat × List Char)
  | [] => none
  | c :: cs =>
    if c = '0' then some (0, cs)
    else if isDigitChar c then
      match takeDigits cs with
      | (ds, r) => some (charsVal (digitVal c) ds, r)
    else none

mutual

/-- Read one JSON value after optional whitespace.  The fuel bounds the
nesting the parser will enter; `json_loads` passes more than the document
can use. -/
def parseVal : Nat → List Char → Option (Json × List Char)
  | 0, _ => none
  | fuel + 1, cs =>
    match skipWs cs with
    | [] => none
    | c :: rest =>
      if c = 'n' then (stripLit ['u', 'l', 'l'] rest).map (fun r => (Json.null, r))
      else if c = 't' then (stripLit ['r', 'u', 'e'] rest).map (fun r => (Json.bool true, r))
      else if c = 'f' then
        (stripLit ['a', 'l', 's', 'e'] rest).map (fun r => (Json.bool false, r))
      else if c = '"' then
        (parseStrBody rest).map (fun p => (Json.str (String.mk p.1), p.2))
      else if c = '[' then parseArrBody fuel rest
      else if c = '\x7b' then parseObjBody fuel rest
      else if c = '-' then (parseNat rest).map (fun p => (Json.num (-(p.1 : Int)), p.2))
      else if isDigitChar c then
        (parseNat (c :: rest)).map (fun p => (Json.num (p.1 : Int), p.2))
      else none

/-- After `[`: an empty array or a first element and the separated rest. -/
def parseArrBody : Nat → List Char → Option (Json × List Char)
  | 0, _ => none
  | fuel + 1, cs =>
    match skipWs cs with
    | [] => none
    | c :: rest =>
      if c = ']' then some (Json.arr [], rest)
      else
        match parseVal fuel (c :: rest) with
        | none => none
        | some (v, r) =>
          match parseArrSep fuel r with
          | none => none
          | some (vs, r2) => some (Json.arr (v :: vs), r2)

/-- After an array element: `,` and another element, or the closing `]`. -/
def parseArrSep : Nat → List Char → Option (List Json × List Char)
  | 0, _ => none
  | fuel + 1, cs =>
    match skipWs cs with
    | [] => none
    | c :: rest =>
      if c = ']' then some ([], rest)
      else if c = ',' then
        match parseVal fuel rest with
        | none => none
        | some (v, r) =>
          match parseArrSep fuel r with
          | none => none
          | some (vs, r2) => some (v :: vs, r2)
      else none

/-- One `"key": value` member. -/
def parseMember : Nat → List Char → Option ((String × Json) × List Char)
  | 0, _ => none
  | fuel + 1, cs =>
    match skipWs cs with
    | [] => none
    | c :: rest =>
      if c = '"' then
        match parseStrBody rest with
        | none => none
        | some (k, r) =>
          match skipWs r with
          | [] => none
          | c2 :: r2 =>
            if c2 = ':' then
              match parseVal fuel r2 with
              | none => none
              | some (v, r3) => some ((String.mk k, v), r3)
            else none
      else none

/-- After `{`: an empty object or a first member and the separated rest. -/
def parseObjBody : Nat → List Char → Option (Json × List Char)
  | 0, _ => none
  | fuel + 1, cs =>
    match skipWs cs with
    | [] => none
    | c :: rest =>
      if c = '\x7d' then some (Json.obj [], rest)
      else
        match parseMember fuel (c :: rest) with
        | none => none
        | some (kv, r) =>
          match parseObjSep fuel r with
          | none => none
          | some (fs, r2) => some (Json.obj (kv :: fs), r2)

/-- After an object member: `,` and another member, or the closing brace. -/
def parseObjSep : Nat → List Char → Option (List (String × Json) × List Char)
  | 0, _ => none
  | fuel + 1, cs =>
    match skipWs cs with
    | [] => none
    | c :: rest =>
      if c = '\x7d' then some ([], rest)
      else if c = ',' then
        match parseMember fuel rest with
        | none => none
        | some (kv, r) =>
          match parseObjSep fuel r with
          | none => none
          | some (fs, r2) => some (kv :: fs, r2)
      else none

end

/-- What `json.load(file)` yields on the file's text: the document, or
`none` where `json.load` raises `json.JSONDecodeError`.  The fuel
`length + 1` always suffices, every nesting level consuming at least one
character. -/
def json_loads (s : String) : Option Json :=
  match parseVal (s.length + 1) s.data with
  | none => none
  | some (v, rest) => if skipWs rest = [] then some v else none

/-! ## Round trip of the codec: auxiliary lemmas -/

/-- Every character of `cs` is JSON whitespace. -/
def AllWs (cs : List Char) : Prop := ∀ c ∈ cs, isWsChar c = true

theorem skipWs_cons_not (c : Char) (cs : List Char) (h : isWsChar c = false) :
    skipWs (c :: cs) = c :: cs := by
  simp [skipWs, h]

theorem skipWs_append (pre cs : List Char) (h : AllWs pre) :
    skipWs (pre ++ cs) = skipWs cs := by
  induction pre with
  | nil => rfl
  | cons c t ih =>
    have hc : isWsChar c = true := h c (by simp)
    simp [skipWs, hc]
    exact ih (fun d hd => h d (by simp [hd]))

theorem allWs_indent (lvl : Nat) : AllWs (indentChars lvl) := by
  intro c hc
  have : c = ' ' := List.eq_of_mem_replicate hc
  simp [this, isWsChar]

theorem allWs_newline_indent (lvl : Nat) : AllWs ('\n' :: indentChars lvl) := by
  intro c hc
  rcases hc with _ | hc
  · rfl
  · exact allWs_indent lvl c (by assumption)

theorem stripLit_append (ls rest : List Char) : stripLit ls (ls ++ rest) = some rest := by
  induction ls with
  | nil => rfl
  | cons l t ih => simp [stripLit, ih]

/-- The parser functions all begin by skipping whitespace, so a whitespace
run in front of their input is invisible to them. -/
theorem parseVal_ws (fuel : Nat) (pre cs : List Char) (h : AllWs pre) :
    parseVal fuel (pre ++ cs) = parseVal fuel cs := by
  cases fuel with
  | zero => rfl
  | succ f => simp [parseVal, skipWs_append pre cs h]

theorem parseArrSep_ws (fuel : Nat) (pre cs : List Char) (h : AllWs pre) :
    parseArrSep fuel (pre ++ cs) = parseArrSep fuel cs := by
  cases fuel with
  | zero => rfl
  | succ f => simp [parseArrSep, skipWs_append pre cs h]

theorem parseObjSep_ws (fuel : Nat) (pre cs : List Char) (h : AllWs pre) :
    parseObjSep fuel (pre ++ cs) = parseObjSep fuel cs := by
  cases fuel with
  | zero => rfl
  | succ f => simp [parseObjSep, skipWs_append pre cs h]

/-- What may legally follow a serialized value: nothing, or a separator,
closing bracket or whitespace.  The parser of a number stops exactly there. -/
def goodTailB : List Char → Bool
  | [] => true
  | c :: _ => c = ',' || c = ']' || c = '\x7d' || isWsChar c

theorem goodTail_not_digit (cs : List Char) (h : goodTailB cs = true) :
    ∀ c t, cs = c :: t → isDigitChar c = false := by
  intro c t he
  subst he
  simp only [goodTailB, Bool.or_eq_true, decide_eq_true_eq] at h
  rcases h with ((h | h) | h) | h
  · simp [h, isDigitChar]
  · simp [h, isDigitChar]
  · simp [h, isDigitChar]
  · simp only [isWsChar, Bool.or_eq_true, decide_eq_true_eq] at h
    rcases h with ((h | h) | h) | h <;> simp [h, isDigitChar]

/-! ### Digits and numbers -/

theorem digitChar_isDigit (d : Nat) : isDigitChar (digitChar d) = true := by
  rcases d with _ | _ | _ | _ | _ | _ | _ | _ | _ | d <;> rfl

theorem digitVal_digitChar (d : Nat) (h : d < 10) : digitVal (digitChar d) = d := by
  rcases d with _ | _ | _ | _ | _ | _ | _ | _ | _ | _ | d <;> first | rfl | omega

/-- A digit character is distinct from every non-digit character. -/
theorem isDigit_ne (c : Char) (h : isDigitChar c = true) (d : Char)
    (hd : isDigitChar d = false) : c ≠ d := by
  intro e
  subst e
  rw [h] at hd
  exact absurd hd (by simp)

theorem ws_not_digit (c : Char) (h : isWsChar c = true) : isDigitChar c = false := by
  simp only [isWsChar, Bool.or_eq_true, decide_eq_true_eq] at h
  rcases h with ((h | h) | h) | h <;> subst h <;> decide

theorem isDigit_not_ws (c : Char) (h : isDigitChar c = true) : isWsChar c = false := by
  cases hw : isWsChar c with
  | false => rfl
  | true => rw [ws_not_digit c hw] at h; exact absurd h (by simp)

theorem natToCharsAux_acc (fuel n : Nat) (acc : List Char) :
    natToCharsAux fuel n acc = natToCharsAux fuel n [] ++ acc := by
  induction fuel generalizing n acc with
  | zero => rfl
  | succ f ih =>
    by_cases h : n < 10
    · simp [natToCharsAux, h]
    · simp only [natToCharsAux, if_neg h]
      rw [ih (n / 10) (digitChar (n % 10) :: acc), ih (n / 10) [digitChar (n % 10)]]
      simp

theorem charsVal_cons (a : Nat) (c : Char) (l : List Char) :
    charsVal a (c :: l) = charsVal (a * 10 + digitVal c) l := rfl

theorem charsVal_natToCharsAux (fuel n : Nat) (acc : List Char) (h : n < 10 ^ fuel) :
    charsVal 0 (natToCharsAux fuel n acc) = charsVal n acc := by
  induction fuel generalizing n acc with
  | zero =>
    have : n = 0 := by simpa using h
    simp [natToCharsAux, this]
  | succ f ih =>
    by_cases h10 : n < 10
    · simp [natToCharsAux, h10, charsVal_cons, digitVal_digitChar n h10]
    · simp only [natToCharsAux, if_neg h10]
      have hb : n / 10 < 10 ^ f := by
        rw [Nat.div_lt_iff_lt_mul (by norm_num)]
        calc n < 10 ^ (f + 1) := h
        _ = 10 ^ f * 10 := by ring
      rw [ih (n / 10) _ hb, charsVal_cons,
        digitVal_digitChar (n % 10) (Nat.mod_lt n (by norm_num))]
      have he : n / 10 * 10 + n % 10 = n := by omega
      rw [he]

theorem lt_ten_pow_succ (n : Nat) : n < 10 ^ (n + 1) :=
  calc n < 10 ^ n := Nat.lt_pow_self (by norm_num) n
  _ ≤ 10 ^ (n + 1) := Nat.pow_le_pow_right (by norm_num) (Nat.le_succ n)

theorem charsVal_natToChars (n : Nat) : charsVal 0 (natToChars n) = n := by
  have := charsVal_natToCharsAux (n + 1) n [] (lt_ten_pow_succ n)
  simpa [natToChars, charsVal] using this

theorem natToCharsAux_digits (fuel n : Nat) :
    ∀ c ∈ natToCharsAux fuel n [], isDigitChar c = true := by
  induction fuel generalizing n with
  | zero => intro c hc; simp [natToCharsAux] at hc
  | succ f ih =>
    intro c hc
    by_cases h : n < 10
    · simp [natToCharsAux, h] at hc
      simp [hc, digitChar_isDigit]
    · rw [natToCharsAux, if_neg h, natToCharsAux_acc] at hc
      rcases List.mem_append.mp hc with hc | hc
      · exact ih (n / 10) c hc
      · simp at hc
        simp [hc, digitChar_isDigit]

theorem natToChars_digits (n : Nat) : ∀ c ∈ natToChars n, isDigitChar c = true :=
  natToCharsAux_digits (n + 1) n

theorem natToCharsAux_shape (fuel n : Nat) (hf : n < 10 ^ fuel) (h1 : 1 ≤ n) :
    ∃ d t, natToCharsAux fuel n [] = digitChar d :: t ∧ 1 ≤ d ∧ d ≤ 9 := by
  induction fuel generalizing n with
  | zero => omega
  | succ f ih =>
    by_cases h : n < 10
    · exact ⟨n, [], by simp [natToCharsAux, h], h1, by omega⟩
    · have hb : n / 10 < 10 ^ f := by
        rw [Nat.div_lt_iff_lt_mul (by norm_num)]
        calc n < 10 ^ (f + 1) := hf
        _ = 10 ^ f * 10 := by ring
      obtain ⟨d, t, ht, hd1, hd9⟩ := ih (n / 10) hb (by omega)
      refine ⟨d, t ++ [digitChar (n % 10)], ?_, hd1, hd9⟩
      rw [natToCharsAux, if_neg h, natToCharsAux_acc, ht]
      simp

theorem digitChar_ne_zero (d : Nat) (h1 : 1 ≤ d) (h9 : d ≤ 9) : digitChar d ≠ '0' := by
  interval_cases d <;> decide

theorem natToChars_zero : natToChars 0 = ['0'] := rfl

/-- Shape of a rendered natural number: a digit head, digit tail, and a
nonzero leading digit when `n` is nonzero. -/
theorem natToChars_shape (n : Nat) (h1 : 1 ≤ n) :
    ∃ c t, natToChars n = c :: t ∧ isDigitChar c = true ∧ c ≠ '0' ∧
      (∀ d ∈ t, isDigitChar d = true) := by
  obtain ⟨d, t, ht, hd1, hd9⟩ := natToCharsAux_shape (n + 1) n (lt_ten_pow_succ n) h1
  refine ⟨digitChar d, t, ht, digitChar_isDigit d, digitChar_ne_zero d hd1 hd9, ?_⟩
  intro c hc
  exact natToChars_digits n c (by rw [natToChars, ht]; simp [hc])

theorem takeDigits_append (ds rest : List Char) (hds : ∀ c ∈ ds, isDigitChar c = true)
    (hr : ∀ c t, rest = c :: t → isDigitChar c = false) :
    takeDigits (ds ++ rest) = (ds, rest) := by
  induction ds with
  | nil =>
    cases rest with
    | nil => rfl
    | cons c t => simp [takeDigits, hr c t rfl]
  | cons c t ih =>
    have hc : isDigitChar c = true := hds c (by simp)
    have ih' := ih (fun d hd => hds d (by simp [hd]))
    simp [takeDigits, hc, ih']

/-- Parsing the decimal rendering of `n` yields `n` and stops exactly at the
rendering's end, provided what follows cannot extend a number. -/
theorem parseNat_natToChars (n : Nat) (rest : List Char) (hgt : goodTailB rest = true) :
    parseNat (natToChars n ++ rest) = some (n, rest) := by
  rcases Nat.eq_zero_or_pos n with rfl | h1
  · rw [natToChars_zero]
    simp [parseNat]
  · obtain ⟨c, t, ht, hdig, hne, htd⟩ := natToChars_shape n h1
    rw [ht]
    simp only [List.cons_append, parseNat, if_neg hne, hdig, if_pos]
    rw [takeDigits_append t rest htd (goodTail_not_digit rest hgt)]
    have hv : charsVal (digitVal c) t = n := by
      have := charsVal_natToChars n
      rw [ht, charsVal_cons] at this
      simpa using this
    rw [hv]

/-! ### Strings and escapes -/

theorem hexVal_hexDigitChar (d : Nat) (h : d < 16) : hexVal (hexDigitChar d) = some d := by
  interval_cases d <;> decide

/-- Reading one escaped character continues the string parse with that
character prepended. -/
theorem parseStrBody_escapeChar (c : Char) (rest : List Char) :
    parseStrBody (escapeChar c ++ rest) =
      match parseStrBody rest with
      | some (s, r) => some (c :: s, r)
      | none => none := by
  unfold escapeChar
  split_ifs with h1 h2 h3 h4 h5 h6 h7 h8
  · subst h1; rw [parseStrBody.eq_def]; simp [unescChar]
  · subst h2; rw [parseStrBody.eq_def]; simp [unescChar]
  · subst h3; rw [parseStrBody.eq_def]; simp [unescChar]
  · subst h4; rw [parseStrBody.eq_def]; simp [unescChar]
  · subst h5; rw [parseStrBody.eq_def]; simp [unescChar]
  · have hc : c = '\x08' := by
      have := Char.ofNat_toNat c
      rw [h6] at this
      exact this.symm
    subst hc; rw [parseStrBody.eq_def]; simp [unescChar]
  · have hc : c = '\x0c' := by
      have := Char.ofNat_toNat c
      rw [h7] at this
      exact this.symm
    subst hc; rw [parseStrBody.eq_def]; simp [unescChar]
  · rw [List.cons_append, parseStrBody.eq_def]
    simp only [List.cons_append]
    rw [hexVal_hexDigitChar (c.toNat / 16) (by omega),
      hexVal_hexDigitChar (c.toNat % 16) (by omega)]
    have hv : c.toNat / 16 * 16 + c.toNat % 16 = c.toNat := by omega
    have hon := Char.ofNat_toNat c
    have h0 : hexVal '0' = some 0 := rfl
    simp [h0, hv, hon]
  · rw [parseStrBody.eq_def]
    simp [h1, h2, h8]

/-- Round trip of string bodies: parsing an escaped body recovers the
original characters and stops right after the closing quote. -/
theorem parseStrBody_escape (s rest : List Char) :
    parseStrBody (escapeChars s ++ '"' :: rest) = some (s, rest) := by
  induction s with
  | nil =>
    rw [show escapeChars ([] : List Char) = [] from rfl, List.nil_append, parseStrBody.eq_def]
    simp
  | cons c t ih =>
    rw [escapeChars, List.append_assoc, parseStrBody_escapeChar, ih]

/-! ### Fuel measure and head shapes -/

mutual

/-- Fuel a parse of the serialized value can consume; bounded by the
serialization's length. -/
def jsize : Json → Nat
  | Json.null => 1
  | Json.bool _ => 1
  | Json.num _ => 1
  | Json.str _ => 1
  | Json.arr xs => 2 + jsizeElems xs
  | Json.obj fs => 2 + jsizeFields fs

def jsizeElems : List Json → Nat
  | [] => 0
  | x :: xs => 2 + jsize x + jsizeElems xs

def jsizeFields : List (String × Json) → Nat
  | [] => 0
  | kv :: fs => 2 + jsize kv.2 + jsizeFields fs

end

theorem natToChars_head (n : Nat) :
    ∃ c t, natToChars n = c :: t ∧ isDigitChar c = true := by
  rcases Nat.eq_zero_or_pos n with rfl | h1
  · exact ⟨'0', [], natToChars_zero, by decide⟩
  · obtain ⟨c, t, ht, hdig, _, _⟩ := natToChars_shape n h1
    exact ⟨c, t, ht, hdig⟩

/-- A serialized value starts with a character that is not whitespace and
not a closing bracket or separator. -/
theorem serVal_head (lvl : Nat) (v : Json) :
    ∃ c t, serVal lvl v = c :: t ∧ isWsChar c = false ∧ c ≠ ']' ∧ c ≠ '\x7d' ∧ c ≠ ',' := by
  cases v with
  | null => exact ⟨'n', _, rfl, by decide, by decide, by decide, by decide⟩
  | bool b => cases b with
    | true => exact ⟨'t', _, rfl, by decide, by decide, by decide, by decide⟩
    | false => exact ⟨'f', _, rfl, by decide, by decide, by decide, by decide⟩
  | num n => cases n with
    | ofNat m =>
      obtain ⟨c, t, ht, hdig⟩ := natToChars_head m
      refine ⟨c, t, ?_, isDigit_not_ws c hdig, isDigit_ne c hdig ']' (by decide),
        isDigit_ne c hdig '\x7d' (by decide), isDigit_ne c hdig ',' (by decide)⟩
      rw [serVal, intToChars, ht]
    | negSucc m => exact ⟨'-', _, rfl, by decide, by decide, by decide, by decide⟩
  | str s => exact ⟨'"', _, rfl, by decide, by decide, by decide, by decide⟩
  | arr xs => cases xs with
    | nil => exact ⟨'[', _, rfl, by decide, by decide, by decide, by decide⟩
    | cons x t => exact ⟨'[', _, rfl, by decide, by decide, by decide, by decide⟩
  | obj fs => cases fs with
    | nil => exact ⟨'\x7b', _, rfl, by decide, by decide, by decide, by decide⟩
    | cons kv t => exact ⟨'\x7b', _, rfl, by decide, by decide, by decide, by decide⟩

theorem skipWs_nl_indent (l : Nat) (Z : List Char) :
    skipWs ('\n' :: (indentChars l ++ Z)) = skipWs Z := by
  rw [show '\n' :: (indentChars l ++ Z) = ('\n' :: indentChars l) ++ Z by simp,
    skipWs_append _ _ (allWs_newline_indent l)]

theorem skipWs_indent (l : Nat) (Z : List Char) :
    skipWs (indentChars l ++ Z) = skipWs Z :=
  skipWs_append _ _ (allWs_indent l)

theorem goodTail_serArrRest (l : Nat) (xs : List Json) (Z : List Char) :
    goodTailB (serArrRest l xs ++ '\n' :: Z) = true := by
  cases xs with
  | nil => simp [serArrRest, goodTailB, isWsChar]
  | cons x t => simp [serArrRest, goodTailB]

theorem goodTail_serObjRest (l : Nat) (fs : List (String × Json)) (Z : List Char) :
    goodTailB (serObjRest l fs ++ '\n' :: Z) = true := by
  cases fs with
  | nil => simp [serObjRest, goodTailB, isWsChar]
  | cons kv t => simp [serObjRest, goodTailB]

/-! ### Parser steps on serialized shapes -/

theorem string_mk_data (s : String) : String.mk s.data = s := rfl

theorem parseVal_nl_indent (fuel l : Nat) (cs : List Char) :
    parseVal fuel ('\n' :: (indentChars l ++ cs)) = parseVal fuel cs := by
  rw [show '\n' :: (indentChars l ++ cs) = ('\n' :: indentChars l) ++ cs from by simp]
  exact parseVal_ws fuel _ cs (allWs_newline_indent l)

theorem parseVal_space (fuel : Nat) (cs : List Char) :
    parseVal fuel (' ' :: cs) = parseVal fuel cs := by
  rw [show ' ' :: cs = [' '] ++ cs from by simp]
  refine parseVal_ws fuel _ cs ?_
  intro c hc
  simp at hc
  simp [hc, isWsChar]

theorem parseMember_ws (fuel : Nat) (pre cs : List Char) (h : AllWs pre) :
    parseMember fuel (pre ++ cs) = parseMember fuel cs := by
  cases fuel with
  | zero => rfl
  | succ f => simp [parseMember, skipWs_append pre cs h]

theorem parseMember_nl_indent (fuel l : Nat) (cs : List Char) :
    parseMember fuel ('\n' :: (indentChars l ++ cs)) = parseMember fuel cs := by
  rw [show '\n' :: (indentChars l ++ cs) = ('\n' :: indentChars l) ++ cs from by simp]
  exact parseMember_ws fuel _ cs (allWs_newline_indent l)

theorem parseArrBody_ws (fuel : Nat) (pre cs : List Char) (h : AllWs pre) :
    parseArrBody fuel (pre ++ cs) = parseArrBody fuel cs := by
  cases fuel with
  | zero => rfl
  | succ f => simp [parseArrBody, skipWs_append pre cs h]

theorem parseArrBody_nl_indent (fuel l : Nat) (cs : List Char) :
    parseArrBody fuel ('\n' :: (indentChars l ++ cs)) = parseArrBody fuel cs := by
  rw [show '\n' :: (indentChars l ++ cs) = ('\n' :: indentChars l) ++ cs from by simp]
  exact parseArrBody_ws fuel _ cs (allWs_newline_indent l)

theorem parseObjBody_ws (fuel : Nat) (pre cs : List Char) (h : AllWs pre) :
    parseObjBody fuel (pre ++ cs) = parseObjBody fuel cs := by
  cases fuel with
  | zero => rfl
  | succ f => simp [parseObjBody, skipWs_append pre cs h]

theorem parseObjBody_nl_indent (fuel l : Nat) (cs : List Char) :
    parseObjBody fuel ('\n' :: (indentChars l ++ cs)) = parseObjBody fuel cs := by
  rw [show '\n' :: (indentChars l ++ cs) = ('\n' :: indentChars l) ++ cs from by simp]
  exact parseObjBody_ws fuel _ cs (allWs_newline_indent l)

theorem parseVal_open_bracket (f : Nat) (cs : List Char) :
    parseVal (f + 1) ('[' :: cs) = parseArrBody f cs := by
  simp [parseVal, skipWs, isWsChar]

theorem parseVal_open_brace (f : Nat) (cs : List Char) :
    parseVal (f + 1) ('\x7b' :: cs) = parseObjBody f cs := by
  simp [parseVal, skipWs, isWsChar]

/-- A nonempty array body: the head element is parsed first, then the
separated rest. -/
theorem parseArrBody_serVal (f lvl : Nat) (x : Json) (tail : List Char) :
    parseArrBody (f + 1) (serVal lvl x ++ tail) =
      match parseVal f (serVal lvl x ++ tail) with
      | none => none
      | some (v, r) =>
        match parseArrSep f r with
        | none => none
        | some (vs, r2) => some (Json.arr (v :: vs), r2) := by
  obtain ⟨c, t, hser, hws, hne1, hne2, hne3⟩ := serVal_head lvl x
  rw [hser, List.cons_append]
  simp [parseArrBody, skipWs_cons_not _ _ hws, hne1]

/-- A nonempty object body: the head member is parsed first, then the
separated rest. -/
theorem parseObjBody_serField (f lvl : Nat) (kv : String × Json) (tail : List Char) :
    parseObjBody (f + 1) (serField lvl kv ++ tail) =
      match parseMember f (serField lvl kv ++ tail) with
      | none => none
      | some (kv', r) =>
        match parseObjSep f r with
        | none => none
        | some (fs, r2) => some (Json.obj (kv' :: fs), r2) := by
  obtain ⟨k, v⟩ := kv
  rw [show serField lvl (k, v) = '"' :: (escapeChars k.data ++ '"' :: ':' :: ' ' :: serVal lvl v)
    from by simp [serField], List.cons_append]
  simp [parseObjBody, skipWs, isWsChar]

theorem parseArrSep_comma (f : Nat) (cs : List Char) :
    parseArrSep (f + 1) (',' :: cs) =
      match parseVal f cs with
      | none => none
      | some (v, r) =>
        match parseArrSep f r with
        | none => none
        | some (vs, r2) => some (v :: vs, r2) := by
  simp [parseArrSep, skipWs, isWsChar]

theorem parseArrSep_close (f lvlOut : Nat) (rest : List Char) :
    parseArrSep (f + 1) ('\n' :: (indentChars lvlOut ++ (']' :: rest))) = some ([], rest) := by
  simp [parseArrSep, skipWs_nl_indent, skipWs_indent, skipWs, isWsChar]

theorem parseObjSep_comma (f : Nat) (cs : List Char) :
    parseObjSep (f + 1) (',' :: cs) =
      match parseMember f cs with
      | none => none
      | some (kv, r) =>
        match parseObjSep f r with
        | none => none
        | some (fs, r2) => some (kv :: fs, r2) := by
  simp [parseObjSep, skipWs, isWsChar]

theorem parseObjSep_close (f lvlOut : Nat) (rest : List Char) :
    parseObjSep (f + 1) ('\n' :: (indentChars lvlOut ++ ('\x7d' :: rest))) = some ([], rest) := by
  simp [parseObjSep, skipWs_nl_indent, skipWs_indent, skipWs, isWsChar]

/-- Round trip of one object member, given the round trip of its value. -/
theorem parseMember_serField (k : String) (v : Json) (lvl fuel : Nat) (rest : List Char)
    (hv : ∀ fuel' rest', jsize v ≤ fuel' → goodTailB rest' = true →
      parseVal fuel' (serVal lvl v ++ rest') = some (v, rest'))
    (hf : 1 + jsize v ≤ fuel) (hgt : goodTailB rest = true) :
    parseMember fuel (serField lvl (k, v) ++ rest) = some ((k, v), rest) := by
  cases fuel with
  | zero => omega
  | succ h =>
    rw [show serField lvl (k, v) = '"' :: (escapeChars k.data ++ '"' :: ':' :: ' ' :: serVal lvl v)
      from by simp [serField], List.cons_append]
    have hpm : parseMember (h + 1)
        ('"' :: ((escapeChars k.data ++ '"' :: ':' :: ' ' :: serVal lvl v) ++ rest)) =
        match skipWs ((escapeChars k.data ++ '"' :: ':' :: ' ' :: serVal lvl v) ++ rest) with
        | _ => _ := rfl
    simp only [parseMember, skipWs_cons_not _ _ (by decide : isWsChar '"' = false)]
    rw [show (escapeChars k.data ++ '"' :: ':' :: ' ' :: serVal lvl v) ++ rest =
      escapeChars k.data ++ '"' :: (':' :: ' ' :: (serVal lvl v ++ rest)) from by simp]
    simp only [parseStrBody_escape k.data (':' :: ' ' :: (serVal lvl v ++ rest))]
    rw [skipWs_cons_not _ _ (by decide : isWsChar ':' = false)]
    simp only [parseVal_space]
    rw [hv h rest (by omega) hgt]
    simp [string_mk_data]

/-! ### The round trip -/

mutual

/-- Parsing the serialization of a value, with enough fuel and a tail no
number can leak into, yields the value and the untouched tail. -/
theorem serVal_roundtrip : ∀ (v : Json) (lvl fuel : Nat) (rest : List Char),
    jsize v ≤ fuel → goodTailB rest = true →
    parseVal fuel (serVal lvl v ++ rest) = some (v, rest)
  | Json.null, lvl, fuel, rest, hsz, hgt => by
    have e : jsize Json.null = 1 := by simp [jsize]
    obtain _ | f := fuel
    · omega
    simp [serVal, parseVal, skipWs, isWsChar, stripLit]
  | Json.bool true, lvl, fuel, rest, hsz, hgt => by
    have e : jsize (Json.bool true) = 1 := by simp [jsize]
    obtain _ | f := fuel
    · omega
    simp [serVal, parseVal, skipWs, isWsChar, stripLit]
  | Json.bool false, lvl, fuel, rest, hsz, hgt => by
    have e : jsize (Json.bool false) = 1 := by simp [jsize]
    obtain _ | f := fuel
    · omega
    simp [serVal, parseVal, skipWs, isWsChar, stripLit]
  | Json.num (Int.ofNat m), lvl, fuel, rest, hsz, hgt => by
    have e : jsize (Json.num (Int.ofNat m)) = 1 := by simp [jsize]
    obtain _ | f := fuel
    · omega
    obtain ⟨c, t, ht, hdig⟩ := natToChars_head m
    have hpn := parseNat_natToChars m rest hgt
    rw [ht, List.cons_append] at hpn
    rw [show serVal lvl (Json.num (Int.ofNat m)) = natToChars m from by
      simp [serVal, intToChars], ht, List.cons_append]
    simp [parseVal, skipWs_cons_not _ _ (isDigit_not_ws c hdig),
      isDigit_ne c hdig 'n' (by decide), isDigit_ne c hdig 't' (by decide),
      isDigit_ne c hdig 'f' (by decide), isDigit_ne c hdig '"' (by decide),
      isDigit_ne c hdig '[' (by decide), isDigit_ne c hdig '\x7b' (by decide),
      isDigit_ne c hdig '-' (by decide), hdig, hpn]
  | Json.num (Int.negSucc m), lvl, fuel, rest, hsz, hgt => by
    have e : jsize (Json.num (Int.negSucc m)) = 1 := by simp [jsize]
    obtain _ | f := fuel
    · omega
    have hpn := parseNat_natToChars (m + 1) rest hgt
    rw [show serVal lvl (Json.num (Int.negSucc m)) = '-' :: natToChars (m + 1) from by
      simp [serVal, intToChars], List.cons_append]
    simp [parseVal, skipWs, isWsChar, hpn]
    rw [Int.negSucc_eq]
    ring
  | Json.str s, lvl, fuel, rest, hsz, hgt => by
    have e : jsize (Json.str s) = 1 := by simp [jsize]
    obtain _ | f := fuel
    · omega
    rw [show serVal lvl (Json.str s) ++ rest =
      '"' :: (escapeChars s.data ++ '"' :: rest) from by simp [serVal]]
    simp [parseVal, skipWs, isWsChar, parseStrBody_escape, string_mk_data]
  | Json.arr [], lvl, fuel, rest, hsz, hgt => by
    have e : jsize (Json.arr []) = 2 := by simp [jsize, jsizeElems]
    obtain _ | f := fuel
    · omega
    obtain _ | g := f
    · omega
    rw [show serVal lvl (Json.arr []) ++ rest = '[' :: (']' :: rest) from by simp [serVal],
      parseVal_open_bracket]
    simp [parseArrBody, skipWs, isWsChar]
  | Json.arr (x :: xs), lvl, fuel, rest, hsz, hgt => by
    have e1 : jsize (Json.arr (x :: xs)) = 2 + jsizeElems (x :: xs) := by simp [jsize]
    have e2 : jsizeElems (x :: xs) = 2 + jsize x + jsizeElems xs := by simp [jsizeElems]
    obtain _ | f := fuel
    · omega
    obtain _ | g := f
    · omega
    rw [show serVal lvl (Json.arr (x :: xs)) ++ rest =
      '[' :: '\n' :: (indentChars (lvl + 4) ++ (serVal (lvl + 4) x
        ++ (serArrRest (lvl + 4) xs ++ '\n' :: (indentChars lvl ++ (']' :: rest)))))
      from by simp [serVal], parseVal_open_bracket, parseArrBody_nl_indent,
      parseArrBody_serVal]
    have hx := serVal_roundtrip x (lvl + 4) g
      (serArrRest (lvl + 4) xs ++ '\n' :: (indentChars lvl ++ (']' :: rest)))
      (by omega) (goodTail_serArrRest (lvl + 4) xs _)
    have ha := serArrRest_roundtrip xs (lvl + 4) lvl g rest (by omega) hgt
    rw [hx]
    simp [ha]
  | Json.obj [], lvl, fuel, rest, hsz, hgt => by
    have e : jsize (Json.obj []) = 2 := by simp [jsize, jsizeFields]
    obtain _ | f := fuel
    · omega
    obtain _ | g := f
    · omega
    rw [show serVal lvl (Json.obj []) ++ rest = '\x7b' :: ('\x7d' :: rest) from by
      simp [serVal], parseVal_open_brace]
    simp [parseObjBody, skipWs, isWsChar]
  | Json.obj ((k, v) :: fs), lvl, fuel, rest, hsz, hgt => by
    have e1 : jsize (Json.obj ((k, v) :: fs)) = 2 + jsizeFields ((k, v) :: fs) := by
      simp [jsize]
    have e2 : jsizeFields ((k, v) :: fs) = 2 + jsize v + jsizeFields fs := by
      simp [jsizeFields]
    obtain _ | f := fuel
    · omega
    obtain _ | g := f
    · omega
    rw [show serVal lvl (Json.obj ((k, v) :: fs)) ++ rest =
      '\x7b' :: '\n' :: (indentChars (lvl + 4) ++ (serField (lvl + 4) (k, v)
        ++ (serObjRest (lvl + 4) fs ++ '\n' :: (indentChars lvl ++ ('\x7d' :: rest)))))
      from by simp [serVal], parseVal_open_brace, parseObjBody_nl_indent,
      parseObjBody_serField]
    have hm := parseMember_serField k v (lvl + 4) g
      (serObjRest (lvl + 4) fs ++ '\n' :: (indentChars lvl ++ ('\x7d' :: rest)))
      (fun fuel' rest' h h' => serVal_roundtrip v (lvl + 4) fuel' rest' h h')
      (by omega) (goodTail_serObjRest (lvl + 4) fs _)
    have ho := serObjRest_roundtrip fs (lvl + 4) lvl g rest (by omega) hgt
    rw [hm]
    simp [ho]
termination_by v lvl fuel rest hsz hgt => sizeOf v

/-- Parsing the serialized tail of an array recovers the remaining elements
up to the closing bracket. -/
theorem serArrRest_roundtrip : ∀ (xs : List Json) (lvlIn lvlOut fuel : Nat)
    (rest : List Char), 1 + jsizeElems xs ≤ fuel → goodTailB rest = true →
    parseArrSep fuel (serArrRest lvlIn xs ++ '\n' :: (indentChars lvlOut ++ ']' :: rest)) =
      some (xs, rest)
  | [], lvlIn, lvlOut, fuel, rest, hsz, hgt => by
    obtain _ | f := fuel
    · omega
    rw [show serArrRest lvlIn [] ++ '\n' :: (indentChars lvlOut ++ ']' :: rest) =
      '\n' :: (indentChars lvlOut ++ (']' :: rest)) from by simp [serArrRest]]
    exact parseArrSep_close f lvlOut rest
  | x :: xs, lvlIn, lvlOut, fuel, rest, hsz, hgt => by
    have e2 : jsizeElems (x :: xs) = 2 + jsize x + jsizeElems xs := by simp [jsizeElems]
    obtain _ | f := fuel
    · omega
    rw [show serArrRest lvlIn (x :: xs) ++ '\n' :: (indentChars lvlOut ++ ']' :: rest) =
      ',' :: '\n' :: (indentChars lvlIn ++ (serVal lvlIn x
        ++ (serArrRest lvlIn xs ++ '\n' :: (indentChars lvlOut ++ (']' :: rest)))))
      from by simp [serArrRest], parseArrSep_comma, parseVal_nl_indent]
    have hx := serVal_roundtrip x lvlIn f
      (serArrRest lvlIn xs ++ '\n' :: (indentChars lvlOut ++ (']' :: rest)))
      (by omega) (goodTail_serArrRest lvlIn xs _)
    have ha := serArrRest_roundtrip xs lvlIn lvlOut f rest (by omega) hgt
    rw [hx]
    simp [ha]
termination_by xs lvlIn lvlOut fuel rest hsz hgt => sizeOf xs

/-- Parsing the serialized tail of an object recovers the remaining members
up to the closing brace. -/
theorem serObjRest_roundtrip : ∀ (fs : List (String × Json)) (lvlIn lvlOut fuel : Nat)
    (rest : List Char), 1 + jsizeFields fs ≤ fuel → goodTailB rest = true →
    parseObjSep fuel (serObjRest lvlIn fs ++ '\n' :: (indentChars lvlOut ++ '\x7d' :: rest)) =
      some (fs, rest)
  | [], lvlIn, lvlOut, fuel, rest, hsz, hgt => by
    obtain _ | f := fuel
    · omega
    rw [show serObjRest lvlIn [] ++ '\n' :: (indentChars lvlOut ++ '\x7d' :: rest) =
      '\n' :: (indentChars lvlOut ++ ('\x7d' :: rest)) from by simp [serObjRest]]
    exact parseObjSep_close f lvlOut rest
  | (k, v) :: fs, lvlIn, lvlOut, fuel, rest, hsz, hgt => by
    have e2 : jsizeFields ((k, v) :: fs) = 2 + jsize v + jsizeFields fs := by
      simp [jsizeFields]
    obtain _ | f := fuel
    · omega
    rw [show serObjRest lvlIn ((k, v) :: fs) ++ '\n' :: (indentChars lvlOut ++ '\x7d' :: rest) =
      ',' :: '\n' :: (indentChars lvlIn ++ (serField lvlIn (k, v)
        ++ (serObjRest lvlIn fs ++ '\n' :: (indentChars lvlOut ++ ('\x7d' :: rest)))))
      from by simp [serObjRest], parseObjSep_comma, parseMember_nl_indent]
    have hm := parseMember_serField k v lvlIn f
      (serObjRest lvlIn fs ++ '\n' :: (indentChars lvlOut ++ ('\x7d' :: rest)))
      (fun fuel' rest' h h' => serVal_roundtrip v lvlIn fuel' rest' h h')
      (by omega) (goodTail_serObjRest lvlIn fs _)
    have ho := serObjRest_roundtrip fs lvlIn lvlOut f rest (by omega) hgt
    rw [hm]
    simp [ho]
termination_by fs lvlIn lvlOut fuel rest hsz hgt => sizeOf fs

end

/-! ### Enough fuel: the measure is bounded by the text length -/

mutual

theorem jsize_le_serVal : ∀ (v : Json) (lvl : Nat), jsize v ≤ (serVal lvl v).length
  | Json.null, lvl => by simp [serVal, jsize]
  | Json.bool true, lvl => by simp [serVal, jsize]
  | Json.bool false, lvl => by simp [serVal, jsize]
  | Json.num n, lvl => by
    have e : jsize (Json.num n) = 1 := by simp [jsize]
    cases n with
    | ofNat m =>
      obtain ⟨c, t, ht, _⟩ := natToChars_head m
      have hs : serVal lvl (Json.num (Int.ofNat m)) = c :: t := by
        rw [show serVal lvl (Json.num (Int.ofNat m)) = natToChars m from by
          simp [serVal, intToChars], ht]
      rw [e, hs]
      simp
    | negSucc m =>
      have hs : serVal lvl (Json.num (Int.negSucc m)) = '-' :: natToChars (m + 1) := by
        simp [serVal, intToChars]
      rw [e, hs]
      simp
  | Json.str s, lvl => by
    have e : jsize (Json.str s) = 1 := by simp [jsize]
    simp [serVal, e]
  | Json.arr [], lvl => by simp [serVal, jsize, jsizeElems]
  | Json.arr (x :: xs), lvl => by
    have e1 : jsize (Json.arr (x :: xs)) = 2 + jsizeElems (x :: xs) := by simp [jsize]
    have e2 : jsizeElems (x :: xs) = 2 + jsize x + jsizeElems xs := by simp [jsizeElems]
    have h1 := jsize_le_serVal x (lvl + 4)
    have h2 := jsizeElems_le_serArrRest xs (lvl + 4)
    have e3 : (serVal lvl (Json.arr (x :: xs))).length =
        4 + (indentChars (lvl + 4)).length + (serVal (lvl + 4) x).length
          + (serArrRest (lvl + 4) xs).length + (indentChars lvl).length := by
      simp [serVal]
      omega
    omega
  | Json.obj [], lvl => by simp [serVal, jsize, jsizeFields]
  | Json.obj ((k, v) :: fs), lvl => by
    have e1 : jsize (Json.obj ((k, v) :: fs)) = 2 + jsizeFields ((k, v) :: fs) := by
      simp [jsize]
    have e2 : jsizeFields ((k, v) :: fs) = 2 + jsize v + jsizeFields fs := by
      simp [jsizeFields]
    have h1 := jsize_le_serVal v (lvl + 4)
    have h2 := jsizeFields_le_serObjRest fs (lvl + 4)
    have e4 : (serField (lvl + 4) (k, v)).length =
        4 + (escapeChars k.data).length + (serVal (lvl + 4) v).length := by
      simp [serField]
      omega
    have e3 : (serVal lvl (Json.obj ((k, v) :: fs))).length =
        4 + (indentChars (lvl + 4)).length + (serField (lvl + 4) (k, v)).length
          + (serObjRest (lvl + 4) fs).length + (indentChars lvl).length := by
      simp [serVal]
      omega
    omega
termination_by v lvl => sizeOf v

theorem jsizeElems_le_serArrRest : ∀ (xs : List Json) (lvl : Nat),
    jsizeElems xs ≤ (serArrRest lvl xs).length
  | [], lvl => by simp [serArrRest, jsizeElems]
  | x :: xs, lvl => by
    have e2 : jsizeElems (x :: xs) = 2 + jsize x + jsizeElems xs := by simp [jsizeElems]
    have h1 := jsize_le_serVal x lvl
    have h2 := jsizeElems_le_serArrRest xs lvl
    have e3 : (serArrRest lvl (x :: xs)).length =
        2 + (indentChars lvl).length + (serVal lvl x).length
          + (serArrRest lvl xs).length := by
      simp [serArrRest]
      omega
    omega
termination_by xs lvl => sizeOf xs

theorem jsizeFields_le_serObjRest : ∀ (fs : List (String × Json)) (lvl : Nat),
    jsizeFields fs ≤ (serObjRest lvl fs).length
  | [], lvl => by simp [serObjRest, jsizeFields]
  | (k, v) :: fs, lvl => by
    have e2 : jsizeFields ((k, v) :: fs) = 2 + jsize v + jsizeFields fs := by
      simp [jsizeFields]
    have h1 := jsize_le_serVal v lvl
    have h2 := jsizeFields_le_serObjRest fs lvl
    have e4 : (serField lvl (k, v)).length =
        4 + (escapeChars k.data).length + (serVal lvl v).length := by
      simp [serField]
      omega
    have e3 : (serObjRest lvl ((k, v) :: fs)).length =
        2 + (indentChars lvl).length + (serField lvl (k, v)).length
          + (serObjRest lvl fs).length := by
      simp [serObjRest]
      omega
    omega
termination_by fs lvl => sizeOf fs

end

/-- The codec round trip: what `json.dump` writes, `json.load` reads back
as the same value.  This is the fidelity the backup/restore cycle relies on. -/
theorem json_loads_dumps (v : Json) : json_loads (json_dumps v) = some v := by
  have h := serVal_roundtrip v 0 ((serVal 0 v).length + 1) []
    (by have := jsize_le_serVal v 0; omega) rfl
  rw [List.append_nil] at h
  unfold json_loads json_dumps
  rw [show (String.mk (serVal 0 v)).length = (serVal 0 v).length from rfl]
  rw [show (String.mk (serVal 0 v)).data = serVal 0 v from rfl]
  rw [h]
  simp [skipWs]

/-! ## Backup manager: `S3LifecycleBackupManager` (`backup_manager.py`)

The backup directory is modelled as an association list from file name to
file text; `os.path.join(self.backup_dir, name)` keeps every file of one
manager under the same directory, so the model drops the common directory
component.  A write either replaces the entry in place or appends it, as a
filesystem does; reads of an absent name yield `none`. -/

/-- The deterministic backup file name used by export and restore alike,
`f"{bucket}_lifecycle_backup.json"`. -/
def backupFileName (bucket_name : String) : String :=
  bucket_name ++ "_lifecycle_backup.json"

def fsLookup : List (String × String) → String → Option String
  | [], _ => none
  | (n, c) :: fs, name => if n = name then some c else fsLookup fs name

def fsWrite : List (String × String) → String → String → List (String × String)
  | [], name, content => [(name, content)]
  | (n, c) :: fs, name, content =>
    if n = name then (name, content) :: fs else (n, c) :: fsWrite fs name content

/-- The observable behaviour of one `export_lifecycle_policies` call: the
filesystem afterwards, the buckets whose empty rule sequence was skipped
with an informational log, the buckets whose policy was written (also
logged informationally), and the error log, which only an environmental
`IOError` could populate. -/
structure ExportResult where
  fs : List (String × String)
  skippedInfo : List String
  exportedInfo : List String
  errorLogs : List String
deriving DecidableEq, Repr

/-- `export_lifecycle_policies(lifecycle_policies)`: for each bucket in the
mapping, skip it with an info log when its rule list is empty, else dump the
raw rule list as indented JSON into the bucket's backup file. -/
def export_lifecycle_policies (fs0 : List (String × String))
    (lifecycle_policies : List (String × List Json)) : ExportResult :=
  lifecycle_policies.foldl
    (fun acc bp =>
      if bp.2.isEmpty then
        { acc with skippedInfo := acc.skippedInfo ++ [bp.1] }
      else
        { acc with
            fs := fsWrite acc.fs (backupFileName bp.1) (json_dumps (Json.arr bp.2)),
            exportedInfo := acc.exportedInfo ++ [bp.1] })
    { fs := fs0, skippedInfo := [], exportedInfo := [], errorLogs := [] }

/-- The observable behaviour of one `restore_lifecycle_policies` call:
every payload sent to `put_bucket_lifecycle_configuration` (the bucket and
the `LifecycleConfiguration` document), whether an error was logged before
the put, and whether the call raised an exception to its caller. -/
structure RestoreOutcome where
  putCalls : List (String × Json)
  loggedError : Bool
  raised : Bool
deriving DecidableEq

/-- `restore_lifecycle_policies(bucket_name)`: a missing backup file is
logged and the method returns; a file whose text `json.load` cannot parse
raises `json.JSONDecodeError`, which the surrounding `except IOError` does
not catch, so the exception propagates with nothing logged by this method;
a parsed document is replayed wholesale as `{"Rules": rules}`.  A
`ClientError` from the put itself is caught and logged after the call and
does not change which calls were made. -/
def restore_lifecycle_policies (fs : List (String × String))
    (bucket_name : String) : RestoreOutcome :=
  match fsLookup fs (backupFileName bucket_name) with
  | none => { putCalls := [], loggedError := true, raised := false }
  | some content =>
    match json_loads content with
    | none => { putCalls := [], loggedError := false, raised := true }
    | some rules =>
      { putCalls := [(bucket_name, Json.obj [("Rules", rules)])],
        loggedError := false, raised := false }

/-- `list_backups()`: the file names in the backup directory that end with
the backup suffix. -/
def list_backups (fs : List (String × String)) : List String :=
  (fs.map Prod.fst).filter (fun f => "_lifecycle_backup.json".data.isSuffixOf f.data)

/-! ## Rule normalizer: `S3LifecycleManager` (`manager.py`) and
`LifecyclePolicy` (`lifecycle_policy.py`)

A lifecycle `Rule` is the optional-field structure both normalizers probe
with `.get`: each field below is `none` exactly when the corresponding key
is absent from the rule dictionary.  The one-key wrapper objects
(`Expiration`, `NoncurrentVersionExpiration`,
`AbortIncompleteMultipartUpload`) are `Option (Option Int)`: the outer
level is the wrapper's presence, the inner the day-count key's presence
inside it.  Day counts are integers, as boto3 delivers them.  An output
record is an association list in Python dict insertion order, whose cells
are strings or integers — `expiration` and friends keep the raw integer
when present and the string `"N/A"` otherwise. -/

structure S3Tag where
  Key : String
  Value : String
deriving DecidableEq, Repr

structure S3Filter where
  Prefix : Option String
  Tag : Option S3Tag
deriving DecidableEq, Repr

structure S3Transition where
  Days : Option Int
  StorageClass : Option String
deriving DecidableEq, Repr

structure S3NoncurrentTransition where
  NoncurrentDays : Option Int
  StorageClass : Option String
deriving DecidableEq, Repr

structure Rule where
  Status : Option String
  ID : Option String
  Filter : Option S3Filter
  Transitions : Option (List S3Transition)
  Expiration : Option (Option Int)
  NoncurrentVersionTransitions : Option (List S3NoncurrentTransition)
  NoncurrentVersionExpiration : Option (Option Int)
  AbortIncompleteMultipartUpload : Option (Option Int)
deriving DecidableEq, Repr

/-- A cell of a flat policy record: a string, or a day count kept as the
integer Python would carry. -/
inductive CellValue where
  | strV (s : String)
  | intV (n : Int)
deriving DecidableEq, Repr

/-- Python's `str` on an integer. -/
def intStr (n : Int) : String :=
  String.mk (intToChars n)

/-- One entry of `Transitions`, rendered as
`f"{t.get('Days', 'N/A')} days to {t.get('StorageClass', 'N/A')}"`. -/
def renderTransition (t : S3Transition) : String :=
  (match t.Days with
    | some d => intStr d
    | none => "N/A") ++ " days to " ++
    (match t.StorageClass with
      | some sc => sc
      | none => "N/A")

/-- `", ".join(...)` over the rendered transitions. -/
def renderTransitions (ts : List S3Transition) : String :=
  String.intercalate ", " (ts.map renderTransition)

/-- One entry of `NoncurrentVersionTransitions`, rendered with its
`NoncurrentDays` key. -/
def renderNoncurrentTransition (t : S3NoncurrentTransition) : String :=
  (match t.NoncurrentDays with
    | some d => intStr d
    | none => "N/A") ++ " days to " ++
    (match t.StorageClass with
      | some sc => sc
      | none => "N/A")

def renderNoncurrentTransitions (ts : List S3NoncurrentTransition) : String :=
  String.intercalate ", " (ts.map renderNoncurrentTransition)

/-- The two-level probe `rule.get(wrapper, {}).get(key, "N/A")`: the raw
integer when both levels are present, the string `"N/A"` otherwise. -/
def dayCell (o : Option (Option Int)) : CellValue :=
  match o with
  | some (some d) => CellValue.intV d
  | _ => CellValue.strV "N/A"

/-- The shared `Prefix` display string both normalizers build before any
final coercion: `rule.get("Filter", {}).get("Prefix", "No Prefix")`, with
`", Tag: {k}={v}"` appended when `rule.get("Filter", {}).get("Tag")` is
present (boto3 tags always carry `Key` and `Value`). -/
def filterDisplay (rule : Rule) : String :=
  let p :=
    match rule.Filter with
    | none => "No Prefix"
    | some f =>
      match f.Prefix with
      | none => "No Prefix"
      | some s => s
  match rule.Filter with
  | none => p
  | some f =>
    match f.Tag with
    | none => p
    | some t => p ++ ", Tag: " ++ t.Key ++ "=" ++ t.Value

/-- `S3LifecycleManager.analyze_rule(rule)`: the eight-key dictionary in its
insertion order.  Note the absence of any `or "N/A"` on the two joined
transition fields and of any final `or "No Prefix"` on the prefix, both of
which `LifecyclePolicy.from_rule` has. -/
def analyze_rule (rule : Rule) : List (String × CellValue) :=
  [("Status", CellValue.strV (rule.Status.getD "Unknown")),
   ("ID", CellValue.strV (rule.ID.getD "No ID")),
   ("Prefix", CellValue.strV (filterDisplay rule)),
   ("Transitions", CellValue.strV (renderTransitions (rule.Transitions.getD []))),
   ("ExpirationDays", dayCell rule.Expiration),
   ("NoncurrentVersionTransitions",
     CellValue.strV (renderNoncurrentTransitions
       (rule.NoncurrentVersionTransitions.getD []))),
   ("NoncurrentVersionExpirationDays", dayCell rule.NoncurrentVersionExpiration),
   ("AbortIncompleteMultipartUploadDays", dayCell rule.AbortIncompleteMultipartUpload)]

/-- Python's `s or t` on strings: `t` when `s` is empty. -/
def orElse (s t : String) : String :=
  if s = "" then t else s

/-- `LifecyclePolicy.from_rule(bucket_name, rule)`: nine keys, `Bucket`
first, with the `or "N/A"` coercion on empty joined transitions and the
final `or "No Prefix"` coercion on an empty prefix display. -/
def from_rule (bucket_name : String) (rule : Rule) : List (String × CellValue) :=
  [("Bucket", CellValue.strV bucket_name),
   ("Status", CellValue.strV (rule.Status.getD "Unknown")),
   ("ID", CellValue.strV (rule.ID.getD "No ID")),
   ("Prefix", CellValue.strV (orElse (filterDisplay rule) "No Prefix")),
   ("Transitions",
     CellValue.strV (orElse (renderTransitions (rule.Transitions.getD [])) "N/A")),
   ("ExpirationDays", dayCell rule.Expiration),
   ("NoncurrentVersionTransitions",
     CellValue.strV (orElse (renderNoncurrentTransitions
       (rule.NoncurrentVersionTransitions.getD [])) "N/A")),
   ("NoncurrentVersionExpirationDays", dayCell rule.NoncurrentVersionExpiration),
   ("AbortIncompleteMultipartUploadDays", dayCell rule.AbortIncompleteMultipartUpload)]

/-- `LifecyclePolicy.default_policy()`: the eight-key default record; it
takes no bucket name and carries no `Bucket` key. -/
def default_policy : List (String × CellValue) :=
  [("Status", CellValue.strV "No Rules"),
   ("ID", CellValue.strV "N/A"),
   ("Prefix", CellValue.strV "N/A"),
   ("Transitions", CellValue.strV "N/A"),
   ("ExpirationDays", CellValue.strV "N/A"),
   ("NoncurrentVersionTransitions", CellValue.strV "N/A"),
   ("NoncurrentVersionExpirationDays", CellValue.strV "N/A"),
   ("AbortIncompleteMultipartUploadDays", CellValue.strV "N/A")]

/-- Python dict assignment `d[key] = value`: replace in place when the key
exists, else append at the end. -/
def dictSet (d : List (String × CellValue)) (key : String) (v : CellValue) :
    List (String × CellValue) :=
  if (d.map Prod.fst).contains key then
    d.map (fun kv => if kv.1 = key then (key, v) else kv)
  else d ++ [(key, v)]

/-- The sentinel record `process_buckets` appends for a bucket that came
back with zero rules (the inline dictionary in `manager.py`). -/
def noRulesRecord (bucket_name : String) : List (String × CellValue) :=
  [("Bucket", CellValue.strV bucket_name),
   ("Status", CellValue.strV "No Rules"),
   ("ID", CellValue.strV "N/A"),
   ("Prefix", CellValue.strV "N/A"),
   ("Transitions", CellValue.strV "N/A"),
   ("ExpirationDays", CellValue.strV "N/A"),
   ("NoncurrentVersionTransitions", CellValue.strV "N/A"),
   ("NoncurrentVersionExpirationDays", CellValue.strV "N/A"),
   ("AbortIncompleteMultipartUploadDays", CellValue.strV "N/A")]

/-- What `get_bucket_lifecycle_configuration` can come back with: a
response dictionary whose `Rules` key may be absent, or a `ClientError`
carrying an error code. -/
inductive S3GetLifecycleResult where
  | success (rules : Option (List Rule))
  | clientError (code : String)

/-- `S3LifecycleManager.get_lifecycle_policy(bucket_name)`: the rule list
(`response.get("Rules", [])`) and whether a warning was logged.  A
`NoSuchLifecycleConfiguration` error code returns the empty list silently;
every other `ClientError` code is logged as a warning and also returns the
empty list.  No `ClientError` escapes to the caller. -/
def get_lifecycle_policy (resp : S3GetLifecycleResult) : List Rule × Bool :=
  match resp with
  | S3GetLifecycleResult.success rules => (rules.getD [], false)
  | S3GetLifecycleResult.clientError code =>
    if code = "NoSuchLifecycleConfiguration" then ([], false) else ([], true)

/-- `S3LifecycleManager.process_buckets(bucket_names)`: fold over the
bucket names, appending to the accumulator `self.policies` either the
sentinel record (zero rules) or one analyzed record per rule, each with
`analyzed_rule["Bucket"] = bucket_name` assigned after analysis.  The
remote service is a function from bucket name to response. -/
def process_buckets (remote : String → S3GetLifecycleResult)
    (bucket_names : List String)
    (policies : List (List (String × CellValue))) : List (List (String × CellValue)) :=
  bucket_names.foldl
    (fun acc bucket_name =>
      let rules := (get_lifecycle_policy (remote bucket_name)).1
      if rules.isEmpty then acc ++ [noRulesRecord bucket_name]
      else acc ++ rules.map
        (fun rule => dictSet (analyze_rule rule) "Bucket" (CellValue.strV bucket_name)))
    policies

/-- The fixed CSV column order of `save_policies_csv`. -/
def fieldnamesCsv : List String :=
  ["Bucket", "Status", "ID", "Prefix", "Transitions", "ExpirationDays",
   "NoncurrentVersionTransitions", "NoncurrentVersionExpirationDays",
   "AbortIncompleteMultipartUploadDays"]

def cellStr : CellValue → String
  | CellValue.strV s => s
  | CellValue.intV n => intStr n

def recordField (d : List (String × CellValue)) (key : String) : Option CellValue :=
  match d with
  | [] => none
  | (k, v) :: rest => if k = key then some v else recordField rest key

/-- One CSV field under `csv.QUOTE_MINIMAL`: quoted, with quotes doubled,
exactly when it holds the delimiter, the quote character or a line break. -/
def csvField (s : String) : String :=
  if s.data.any (fun c => c = ',' || c = '"' || c = '\n' || c = '\r') then
    "\"" ++ String.mk (s.data.flatMap (fun c => if c = '"' then ['"', '"'] else [c])) ++ "\""
  else s

/-- One `DictWriter.writerow` line: the record's cells in column order, a
missing key rendered as the empty `restval`, with `\r\n` line terminator. -/
def csvRow (d : List (String × CellValue)) : String :=
  String.intercalate ","
    (fieldnamesCsv.map (fun k => csvField (cellStr ((recordField d k).getD
      (CellValue.strV ""))))) ++ "\r\n"

/-- The whole CSV text: header then one row per record. -/
def csvContent (policies : List (List (String × CellValue))) : String :=
  String.intercalate "," fieldnamesCsv ++ "\r\n" ++
    String.join (policies.map csvRow)

/-- `S3LifecycleManager.save_policies_csv(filename)`: when the accumulator
is empty, log the warning `"No policies to save."` and return with nothing
written; otherwise write the CSV under `filename`.  The result carries the
filesystem afterwards, whether the warning was logged, and the accumulator,
which the method never mutates. -/
def save_policies_csv (policies : List (List (String × CellValue)))
    (filename : String) (fs : List (String × String)) :
    List (String × String) × Bool × List (List (String × CellValue)) :=
  if policies.isEmpty then (fs, true, policies)
  else (fsWrite fs filename (csvContent policies), false, policies)


/-! ## Lemmas on the filesystem and export fold -/

theorem fsLookup_fsWrite_same (fs : List (String × String)) (name content : String) :
    fsLookup (fsWrite fs name content) name = some content := by
  induction fs with
  | nil => simp [fsWrite, fsLookup]
  | cons nc fs ih =>
    obtain ⟨n, c⟩ := nc
    by_cases h : n = name
    · simp [fsWrite, h, fsLookup]
    · simp [fsWrite, h, fsLookup, ih]

theorem fsLookup_fsWrite_other (fs : List (String × String)) (name content m : String)
    (h : name ≠ m) : fsLookup (fsWrite fs name content) m = fsLookup fs m := by
  induction fs with
  | nil => simp [fsWrite, fsLookup, h]
  | cons nc fs ih =>
    obtain ⟨n, c⟩ := nc
    by_cases hn : n = name
    · subst hn
      simp [fsWrite, fsLookup, h]
    · simp [fsWrite, hn, fsLookup, ih]

theorem backupFileName_inj (a b : String) (h : backupFileName a = backupFileName b) :
    a = b := by
  unfold backupFileName at h
  have hd : a.data ++ "_lifecycle_backup.json".data =
      b.data ++ "_lifecycle_backup.json".data := by
    have := congrArg String.data h
    simpa [String.data_append] using this
  have hab : a.data = b.data := List.append_cancel_right hd
  cases a
  cases b
  exact congrArg String.mk hab

/-- The filesystem part of an export is the plain fold over the mapping that
writes the nonempty entries. -/
def exportFsFold (fs : List (String × String))
    (lifecycle_policies : List (String × List Json)) : List (String × String) :=
  lifecycle_policies.foldl
    (fun a bp =>
      if bp.2.isEmpty then a
      else fsWrite a (backupFileName bp.1) (json_dumps (Json.arr bp.2))) fs

theorem exportFsFold_cons (fs : List (String × String)) (bp : String × List Json)
    (ps : List (String × List Json)) :
    exportFsFold fs (bp :: ps) =
      exportFsFold (if bp.2.isEmpty then fs
        else fsWrite fs (backupFileName bp.1) (json_dumps (Json.arr bp.2))) ps := by
  simp only [exportFsFold, List.foldl_cons]

theorem export_fs_eq (fs : List (String × String))
    (ps : List (String × List Json)) :
    (export_lifecycle_policies fs ps).fs = exportFsFold fs ps := by
  suffices h : ∀ (acc : ExportResult),
      (ps.foldl (fun acc bp =>
        if bp.2.isEmpty then
          { acc with skippedInfo := acc.skippedInfo ++ [bp.1] }
        else
          { acc with
              fs := fsWrite acc.fs (backupFileName bp.1) (json_dumps (Json.arr bp.2)),
              exportedInfo := acc.exportedInfo ++ [bp.1] }) acc).fs =
        exportFsFold acc.fs ps by
    exact h _
  induction ps with
  | nil => intro acc; rfl
  | cons bp ps ih =>
    intro acc
    rw [List.foldl_cons, exportFsFold_cons]
    by_cases h : bp.2.isEmpty
    · rw [if_pos h, if_pos h, ih]
    · rw [if_neg h, if_neg h, ih]

theorem exportFsFold_lookup_absent (ps : List (String × List Json))
    (fs : List (String × String)) (b : String) (hb : b ∉ ps.map Prod.fst) :
    fsLookup (exportFsFold fs ps) (backupFileName b) = fsLookup fs (backupFileName b) := by
  induction ps generalizing fs with
  | nil => rfl
  | cons bp ps ih =>
    have hb1 : bp.1 ≠ b := by
      intro e
      exact hb (by simp [e])
    have hb2 : b ∉ ps.map Prod.fst := by
      intro e
      exact hb (by simp [e])
    rw [exportFsFold_cons]
    by_cases h : bp.2.isEmpty
    · rw [if_pos h, ih _ hb2]
    · rw [if_neg h, ih _ hb2]
      exact fsLookup_fsWrite_other _ _ _ _
        (fun e => hb1 (backupFileName_inj _ _ e))

theorem exportFsFold_lookup_mem (ps : List (String × List Json))
    (fs : List (String × String)) (b : String) (rs : List Json)
    (hnd : (ps.map Prod.fst).Nodup) (hmem : (b, rs) ∈ ps) (hne : rs ≠ []) :
    fsLookup (exportFsFold fs ps) (backupFileName b) =
      some (json_dumps (Json.arr rs)) := by
  induction ps generalizing fs with
  | nil => simp at hmem
  | cons bp ps ih =>
    have hnd1 : bp.1 ∉ ps.map Prod.fst := ((List.nodup_cons).mp (by simpa using hnd)).1
    have hnd2 : (ps.map Prod.fst).Nodup := ((List.nodup_cons).mp (by simpa using hnd)).2
    rcases List.mem_cons.mp hmem with he | hm
    · subst he
      have hemp : rs.isEmpty = false := by
        cases rs with
        | nil => exact absurd rfl hne
        | cons x t => rfl
      rw [exportFsFold_cons, hemp]
      simp only [Bool.false_eq_true, if_false]
      rw [exportFsFold_lookup_absent ps _ b hnd1]
      exact fsLookup_fsWrite_same _ _ _
    · have hb1 : bp.1 ≠ b := by
        intro e
        exact hnd1 (e ▸ List.mem_map.mpr ⟨(b, rs), hm, rfl⟩)
      rw [exportFsFold_cons]
      by_cases h : bp.2.isEmpty
      · rw [if_pos h, ih _ hnd2 hm]
      · rw [if_neg h, ih _ hnd2 hm]

theorem exportFsFold_lookup_empty_mem (ps : List (String × List Json))
    (fs : List (String × String)) (b : String)
    (hnd : (ps.map Prod.fst).Nodup) (hmem : (b, ([] : List Json)) ∈ ps) :
    fsLookup (exportFsFold fs ps) (backupFileName b) = fsLookup fs (backupFileName b) := by
  induction ps generalizing fs with
  | nil => simp at hmem
  | cons bp ps ih =>
    have hnd1 : bp.1 ∉ ps.map Prod.fst := ((List.nodup_cons).mp (by simpa using hnd)).1
    have hnd2 : (ps.map Prod.fst).Nodup := ((List.nodup_cons).mp (by simpa using hnd)).2
    rcases List.mem_cons.mp hmem with he | hm
    · subst he
      rw [exportFsFold_cons]
      simp only [List.isEmpty_nil, if_true]
      exact exportFsFold_lookup_absent ps fs b hnd1
    · have hb1 : bp.1 ≠ b := by
        intro e
        exact hnd1 (e ▸ List.mem_map.mpr ⟨(b, []), hm, rfl⟩)
      rw [exportFsFold_cons]
      by_cases h : bp.2.isEmpty
      · rw [if_pos h, ih _ hnd2 hm]
      · rw [if_neg h, ih _ hnd2 hm]
        exact fsLookup_fsWrite_other _ _ _ _
          (fun e => hb1 (backupFileName_inj _ _ e))

theorem fsLookup_none_not_mem (fs : List (String × String)) (name : String)
    (h : fsLookup fs name = none) : name ∉ fs.map Prod.fst := by
  induction fs with
  | nil => simp
  | cons nc fs ih =>
    obtain ⟨n, c⟩ := nc
    by_cases hn : n = name
    · simp [fsLookup, hn] at h
    · simp only [fsLookup, hn, if_neg, ne_eq, not_false_iff] at h
      simp only [List.map_cons, List.mem_cons]
      push_neg
      exact ⟨fun e => hn e.symm, ih h⟩

theorem not_mem_list_backups (fs : List (String × String)) (name : String)
    (h : name ∉ fs.map Prod.fst) : name ∉ list_backups fs := by
  intro hm
  exact h (List.mem_of_mem_filter hm)

theorem export_errorLogs_nil (fs : List (String × String))
    (ps : List (String × List Json)) :
    (export_lifecycle_policies fs ps).errorLogs = [] := by
  suffices h : ∀ (acc : ExportResult),
      (ps.foldl (fun acc bp =>
        if bp.2.isEmpty then
          { acc with skippedInfo := acc.skippedInfo ++ [bp.1] }
        else
          { acc with
              fs := fsWrite acc.fs (backupFileName bp.1) (json_dumps (Json.arr bp.2)),
              exportedInfo := acc.exportedInfo ++ [bp.1] }) acc).errorLogs =
        acc.errorLogs by
    exact h _
  induction ps with
  | nil => intro acc; rfl
  | cons bp ps ih =>
    intro acc
    rw [List.foldl_cons]
    by_cases h : bp.2.isEmpty
    · rw [if_pos h, ih]
    · rw [if_neg h, ih]

theorem export_skippedInfo_sub (fs : List (String × String))
    (ps : List (String × List Json)) (b : String)
    (hmem : (b, ([] : List Json)) ∈ ps) :
    b ∈ (export_lifecycle_policies fs ps).skippedInfo := by
  suffices h : ∀ (acc : ExportResult), (b, ([] : List Json)) ∈ ps ∨ b ∈ acc.skippedInfo →
      b ∈ (ps.foldl (fun acc bp =>
        if bp.2.isEmpty then
          { acc with skippedInfo := acc.skippedInfo ++ [bp.1] }
        else
          { acc with
              fs := fsWrite acc.fs (backupFileName bp.1) (json_dumps (Json.arr bp.2)),
              exportedInfo := acc.exportedInfo ++ [bp.1] }) acc).skippedInfo by
    exact h _ (Or.inl hmem)
  clear hmem
  induction ps with
  | nil =>
    intro acc hor
    rcases hor with hc | hc
    · simp at hc
    · exact hc
  | cons bp ps ih =>
    intro acc hor
    rw [List.foldl_cons]
    by_cases h : bp.2.isEmpty
    · rw [if_pos h]
      refine ih _ ?_
      rcases hor with hc | hc
      · rcases List.mem_cons.mp hc with he | hm
        · right
          simp [← he]
        · exact Or.inl hm
      · right
        simp [hc]
    · rw [if_neg h]
      refine ih _ ?_
      rcases hor with hc | hc
      · rcases List.mem_cons.mp hc with he | hm
        · exfalso
          rw [← he] at h
          exact h rfl
        · exact Or.inl hm
      · exact Or.inr hc

/-! ## The claims -/

/-- C1: Backup round trip.  For every filesystem, every bucket-to-rules
mapping (distinct keys, as a Python dict has), and every bucket bound in it
to a non-empty rule sequence, exporting the mapping and then restoring that
bucket makes exactly one call to the storage write API, whose payload is
`{"Rules": rules}` with the identical rule sequence — the serialize/parse
cycle through the backup file preserves field names and nesting exactly. -/
theorem C1_export_restore_roundtrip
    (fs : List (String × String)) (lifecycle_policies : List (String × List Json))
    (bucket : String) (rules : List Json)
    (hnd : (lifecycle_policies.map Prod.fst).Nodup)
    (hmem : (bucket, rules) ∈ lifecycle_policies)
    (hne : rules ≠ []) :
    restore_lifecycle_policies (export_lifecycle_policies fs lifecycle_policies).fs
      bucket =
      { putCalls := [(bucket, Json.obj [("Rules", Json.arr rules)])],
        loggedError := false, raised := false } := by
  unfold restore_lifecycle_policies
  rw [export_fs_eq, exportFsFold_lookup_mem _ _ _ _ hnd hmem hne]
  simp [json_loads_dumps]

/-- Witness for C1 at a one-bucket mapping holding one rule. -/
theorem C1_witness :
    (([("b", [Json.null])] : List (String × List Json)).map Prod.fst).Nodup ∧
    ("b", [Json.null]) ∈ ([("b", [Json.null])] : List (String × List Json)) ∧
    ([Json.null] : List Json) ≠ [] ∧
    restore_lifecycle_policies
      (export_lifecycle_policies [] [("b", [Json.null])]).fs "b" =
      { putCalls := [("b", Json.obj [("Rules", Json.arr [Json.null])])],
        loggedError := false, raised := false } :=
  ⟨by simp, by simp, by simp,
    C1_export_restore_roundtrip [] [("b", [Json.null])] "b" [Json.null]
      (by simp) (by simp) (by simp)⟩

/-- C2: at the failing input — a backup file for bucket `b1` whose text is
not parseable JSON — `restore_lifecycle_policies` makes zero storage write
calls, logs nothing, and raises to its caller: the `except IOError` around
`json.load` does not catch `json.JSONDecodeError`, so the claimed
"logged and skipped, no exception" behaviour does not happen. -/
theorem C2_corrupt_backup_uncaught :
    restore_lifecycle_policies [(backupFileName "b1", "not json")] "b1" =
      { putCalls := [], loggedError := false, raised := true } := by
  decide

/-- C3, counterexample: a rule whose `Transitions` list is empty renders as
the empty string, not `"N/A"`, through `S3LifecycleManager.analyze_rule` —
the `or "N/A"` coercion exists only in `LifecyclePolicy.from_rule`. -/
theorem C3_counterexample :
    recordField (analyze_rule ⟨none, none, none, some [], none, some [], none, none⟩)
      "Transitions" = some (CellValue.strV "") ∧
    some (CellValue.strV "") ≠ some (CellValue.strV "N/A") := by
  exact ⟨by decide, by decide⟩

/-- C3 as amended: empty `Transitions` (or `NoncurrentVersionTransitions`)
render as `"N/A"` in `from_rule` but as the empty string in `analyze_rule`;
in both normalizers the singleton `[{Days: 30, StorageClass: "GLACIER"}]`
renders `"30 days to GLACIER"`, and missing day-count or storage class
render as `"N/A"` in that slot with entries joined by `", "`. -/
theorem C3_transitions_rendering :
    (∀ (b : String) (r : Rule), r.Transitions.getD [] = [] →
      recordField (from_rule b r) "Transitions" = some (CellValue.strV "N/A") ∧
      recordField (analyze_rule r) "Transitions" = some (CellValue.strV "")) ∧
    (∀ (b : String) (r : Rule), r.NoncurrentVersionTransitions.getD [] = [] →
      recordField (from_rule b r) "NoncurrentVersionTransitions" =
        some (CellValue.strV "N/A") ∧
      recordField (analyze_rule r) "NoncurrentVersionTransitions" =
        some (CellValue.strV "")) ∧
    (∀ (b : String) (r : Rule),
      r.Transitions = some [⟨some 30, some "GLACIER"⟩] →
      recordField (from_rule b r) "Transitions" =
        some (CellValue.strV "30 days to GLACIER") ∧
      recordField (analyze_rule r) "Transitions" =
        some (CellValue.strV "30 days to GLACIER")) ∧
    (∀ (b : String) (r : Rule),
      r.Transitions = some [⟨none, some "GLACIER"⟩, ⟨some 30, none⟩] →
      recordField (from_rule b r) "Transitions" =
        some (CellValue.strV "N/A days to GLACIER, 30 days to N/A") ∧
      recordField (analyze_rule r) "Transitions" =
        some (CellValue.strV "N/A days to GLACIER, 30 days to N/A")) := by
  refine ⟨?_, ?_, ?_, ?_⟩
  · intro b r h
    constructor
    · simp [from_rule, recordField, h]
      decide
    · simp [analyze_rule, recordField, h]
      decide
  · intro b r h
    constructor
    · simp [from_rule, recordField, h]
      decide
    · simp [analyze_rule, recordField, h]
      decide
  · intro b r h
    constructor
    · simp [from_rule, recordField, h]
      decide
    · simp [analyze_rule, recordField, h]
      decide
  · intro b r h
    constructor
    · simp [from_rule, recordField, h]
      decide
    · simp [analyze_rule, recordField, h]
      decide

/-- Witness for C3 at a concrete rule with an empty transition list. -/
theorem C3_witness :
    (Rule.Transitions ⟨none, none, none, some [], none, none, none, none⟩).getD [] = [] ∧
    recordField (from_rule "b" ⟨none, none, none, some [], none, none, none, none⟩)
      "Transitions" = some (CellValue.strV "N/A") :=
  ⟨by decide,
    (C3_transitions_rendering.1 "b" ⟨none, none, none, some [], none, none, none, none⟩
      (by decide)).1⟩

/-- C4: every record either normalizer produces carries exactly the nine
fixed keys, in dict insertion order — `from_rule` puts `Bucket` first,
`process_buckets` assigns it last onto `analyze_rule`'s eight keys; no key
is ever omitted, whatever optional fields the rule lacks. -/
theorem C4_all_nine_keys (bucket_name : String) (rule : Rule) :
    (from_rule bucket_name rule).map Prod.fst =
      ["Bucket", "Status", "ID", "Prefix", "Transitions", "ExpirationDays",
       "NoncurrentVersionTransitions", "NoncurrentVersionExpirationDays",
       "AbortIncompleteMultipartUploadDays"] ∧
    (dictSet (analyze_rule rule) "Bucket" (CellValue.strV bucket_name)).map Prod.fst =
      ["Status", "ID", "Prefix", "Transitions", "ExpirationDays",
       "NoncurrentVersionTransitions", "NoncurrentVersionExpirationDays",
       "AbortIncompleteMultipartUploadDays", "Bucket"] := by
  constructor
  · simp [from_rule]
  · simp [dictSet, analyze_rule]

/-- The tag part of the `Prefix` display: empty without a `Filter.Tag`,
`", Tag: <key>=<value>"` with one. -/
def tagSuffix : Option S3Tag → String
  | none => ""
  | some t => ", Tag: " ++ t.Key ++ "=" ++ t.Value

theorem append_ne_empty_left (p q : String) (h : p ≠ "") : p ++ q ≠ "" := by
  intro e
  apply h
  have hd := congrArg String.data e
  rw [String.data_append] at hd
  have hp : p.data = [] := (List.append_eq_nil.mp (by simpa using hd)).1
  cases p
  subst hp
  rfl

/-- C5, counterexample: with `Filter = {Prefix: "", Tag: ...}` the rendered
prefix is `", Tag: Environment=Production"`, not the claimed
`"No Prefix, Tag: Environment=Production"` (the `or "No Prefix"` of
`from_rule` fires only when the whole display is empty); and
`analyze_rule`, which lacks that coercion entirely, renders a present-but-
empty prefix with no tag as `""`, not `"No Prefix"`. -/
theorem C5_counterexample :
    recordField (from_rule "b" ⟨none, none,
        some ⟨some "", some ⟨"Environment", "Production"⟩⟩, none, none, none, none, none⟩)
      "Prefix" = some (CellValue.strV ", Tag: Environment=Production") ∧
    some (CellValue.strV ", Tag: Environment=Production") ≠
      some (CellValue.strV "No Prefix, Tag: Environment=Production") ∧
    recordField (analyze_rule ⟨none, none, some ⟨some "", none⟩, none, none, none,
        none, none⟩) "Prefix" = some (CellValue.strV "") := by
  refine ⟨?_, ?_, ?_⟩ <;> decide

/-- C5 as amended: the `Prefix` field equals `Filter.Prefix` with
`"No Prefix"` substituted when `Filter` or `Filter.Prefix` is absent, and
`", Tag: <key>=<value>"` appended exactly when `Filter.Tag` is present; a
present-but-empty `Filter.Prefix` is kept: `analyze_rule` renders it as the
empty prefix, and `from_rule` substitutes `"No Prefix"` only when the whole
display string is empty, i.e. only when no tag follows.  The cited instance
(no `Prefix`, a tag) yields `"No Prefix, Tag: Environment=Production"` in
both normalizers. -/
theorem C5_prefix_rendering :
    (∀ (b : String) (r : Rule), r.Filter = none →
      recordField (analyze_rule r) "Prefix" = some (CellValue.strV "No Prefix") ∧
      recordField (from_rule b r) "Prefix" = some (CellValue.strV "No Prefix")) ∧
    (∀ (b : String) (r : Rule) (p : String) (tg : Option S3Tag),
      r.Filter = some ⟨some p, tg⟩ → p ≠ "" →
      recordField (analyze_rule r) "Prefix" =
        some (CellValue.strV (p ++ tagSuffix tg)) ∧
      recordField (from_rule b r) "Prefix" =
        some (CellValue.strV (p ++ tagSuffix tg))) ∧
    (∀ (b : String) (r : Rule) (tg : Option S3Tag), r.Filter = some ⟨none, tg⟩ →
      recordField (analyze_rule r) "Prefix" =
        some (CellValue.strV ("No Prefix" ++ tagSuffix tg)) ∧
      recordField (from_rule b r) "Prefix" =
        some (CellValue.strV ("No Prefix" ++ tagSuffix tg))) ∧
    (∀ (b : String) (r : Rule), r.Filter = some ⟨some "", none⟩ →
      recordField (analyze_rule r) "Prefix" = some (CellValue.strV "") ∧
      recordField (from_rule b r) "Prefix" = some (CellValue.strV "No Prefix")) ∧
    (∀ (b : String) (r : Rule) (tg : S3Tag), r.Filter = some ⟨some "", some tg⟩ →
      recordField (analyze_rule r) "Prefix" =
        some (CellValue.strV (", Tag: " ++ tg.Key ++ "=" ++ tg.Value)) ∧
      recordField (from_rule b r) "Prefix" =
        some (CellValue.strV (", Tag: " ++ tg.Key ++ "=" ++ tg.Value))) := by
  refine ⟨?_, ?_, ?_, ?_, ?_⟩
  · intro b r h
    constructor <;> simp [analyze_rule, from_rule, recordField, filterDisplay, h, orElse]
  · intro b r p tg h hp
    cases tg with
    | none =>
      constructor <;>
        simp [analyze_rule, from_rule, recordField, filterDisplay, h, tagSuffix,
          orElse, hp]
    | some t =>
      have hne : p ++ (", Tag: " ++ (t.Key ++ ("=" ++ t.Value))) ≠ "" :=
        append_ne_empty_left p _ hp
      constructor <;>
        simp [analyze_rule, from_rule, recordField, filterDisplay, h, tagSuffix,
          orElse, hne, String.append_assoc]
  · intro b r tg h
    cases tg with
    | none =>
      constructor <;>
        simp [analyze_rule, from_rule, recordField, filterDisplay, h, tagSuffix, orElse]
    | some t =>
      have hne : ("No Prefix, Tag: " : String) ++ (t.Key ++ ("=" ++ t.Value)) ≠ "" :=
        append_ne_empty_left _ _ (by decide)
      have hm : ("No Prefix" : String) ++ (", Tag: " ++ (t.Key ++ ("=" ++ t.Value))) =
          ("No Prefix, Tag: " : String) ++ (t.Key ++ ("=" ++ t.Value)) := by
        rw [← String.append_assoc]
        exact congrArg (fun s => s ++ (t.Key ++ ("=" ++ t.Value)))
          (by decide : ("No Prefix" : String) ++ ", Tag: " = "No Prefix, Tag: ")
      constructor <;>
        simp [analyze_rule, from_rule, recordField, filterDisplay, h, tagSuffix,
          orElse, hne, hm, String.append_assoc]
  · intro b r h
    constructor <;> simp [analyze_rule, from_rule, recordField, filterDisplay, h, orElse]
  · intro b r t h
    have hne : (", Tag: " : String) ++ (t.Key ++ ("=" ++ t.Value)) ≠ "" :=
      append_ne_empty_left _ _ (by decide)
    constructor <;>
      simp [analyze_rule, from_rule, recordField, filterDisplay, h, tagSuffix,
        orElse, hne, String.append_assoc]

/-- Witness for C5 at a concrete rule with no `Filter`. -/
theorem C5_witness :
    (Rule.Filter ⟨none, none, none, none, none, none, none, none⟩ = none) ∧
    recordField (analyze_rule ⟨none, none, none, none, none, none, none, none⟩)
      "Prefix" = some (CellValue.strV "No Prefix") :=
  ⟨rfl, (C5_prefix_rendering.1 "b" ⟨none, none, none, none, none, none, none, none⟩
    rfl).1⟩

/-- C6: the sentinel record `process_buckets` appends for a bucket with
zero lifecycle rules carries the bucket's name under `Bucket`,
`"No Rules"` under `Status`, and the literal `"N/A"` under each of the
seven remaining fields. -/
theorem C6_no_rules_sentinel (bucket_name : String) :
    recordField (noRulesRecord bucket_name) "Bucket" =
      some (CellValue.strV bucket_name) ∧
    recordField (noRulesRecord bucket_name) "Status" =
      some (CellValue.strV "No Rules") ∧
    (∀ k, k ∈ ["ID", "Prefix", "Transitions", "ExpirationDays",
      "NoncurrentVersionTransitions", "NoncurrentVersionExpirationDays",
      "AbortIncompleteMultipartUploadDays"] →
      recordField (noRulesRecord bucket_name) k = some (CellValue.strV "N/A")) ∧
    (∀ (remote : String → S3GetLifecycleResult)
      (acc : List (List (String × CellValue))),
      (get_lifecycle_policy (remote bucket_name)).1 = [] →
      process_buckets remote [bucket_name] acc = acc ++ [noRulesRecord bucket_name]) := by
  refine ⟨?_, ?_, ?_, ?_⟩
  · simp [noRulesRecord, recordField]
  · simp [noRulesRecord, recordField]
  · intro k hk
    simp only [List.mem_cons, List.not_mem_nil, or_false] at hk
    rcases hk with h | h | h | h | h | h | h <;> subst h <;>
      simp [noRulesRecord, recordField]
  · intro remote acc h
    simp [process_buckets, h]

/-- Witness for C6 at a concrete bucket name, field and failing remote. -/
theorem C6_witness :
    ("ID" ∈ ["ID", "Prefix", "Transitions", "ExpirationDays",
      "NoncurrentVersionTransitions", "NoncurrentVersionExpirationDays",
      "AbortIncompleteMultipartUploadDays"]) ∧
    recordField (noRulesRecord "bx") "ID" = some (CellValue.strV "N/A") ∧
    (get_lifecycle_policy ((fun _ => S3GetLifecycleResult.clientError "AccessDenied")
      "bx")).1 = [] ∧
    process_buckets (fun _ => S3GetLifecycleResult.clientError "AccessDenied")
      ["bx"] [] = [noRulesRecord "bx"] :=
  by
  refine ⟨by simp, ?_, by decide, ?_⟩
  · exact (C6_no_rules_sentinel "bx").2.2.1 "ID" (by simp)
  · simpa using (C6_no_rules_sentinel "bx").2.2.2
      (fun _ => S3GetLifecycleResult.clientError "AccessDenied") [] (by decide)

/-- C7: export writes no file for a bucket mapped to an empty rule
sequence (the skip is an informational log on a run whose error log stays
empty), so when that bucket had no backup file before, `list_backups`
afterwards still excludes it; buckets with non-empty sequences get their
file created or overwritten with the dumped rules, and buckets outside the
mapping keep their files untouched. -/
theorem C7_export_skips_empty :
    (∀ (fs : List (String × String)) (ps : List (String × List Json)) (b : String),
      (ps.map Prod.fst).Nodup → (b, ([] : List Json)) ∈ ps →
      fsLookup (export_lifecycle_policies fs ps).fs (backupFileName b) =
        fsLookup fs (backupFileName b) ∧
      b ∈ (export_lifecycle_policies fs ps).skippedInfo ∧
      (export_lifecycle_policies fs ps).errorLogs = [] ∧
      (fsLookup fs (backupFileName b) = none →
        backupFileName b ∉ list_backups (export_lifecycle_policies fs ps).fs)) ∧
    (∀ (fs : List (String × String)) (ps : List (String × List Json)) (b : String)
      (rs : List Json), (ps.map Prod.fst).Nodup → (b, rs) ∈ ps → rs ≠ [] →
      fsLookup (export_lifecycle_policies fs ps).fs (backupFileName b) =
        some (json_dumps (Json.arr rs))) ∧
    (∀ (fs : List (String × String)) (ps : List (String × List Json)) (b : String),
      b ∉ ps.map Prod.fst →
      fsLookup (export_lifecycle_policies fs ps).fs (backupFileName b) =
        fsLookup fs (backupFileName b)) := by
  refine ⟨?_, ?_, ?_⟩
  · intro fs ps b hnd hmem
    have hunchanged : fsLookup (export_lifecycle_policies fs ps).fs (backupFileName b) =
        fsLookup fs (backupFileName b) := by
      rw [export_fs_eq]
      exact exportFsFold_lookup_empty_mem ps fs b hnd hmem
    refine ⟨hunchanged, export_skippedInfo_sub fs ps b hmem,
      export_errorLogs_nil fs ps, ?_⟩
    intro hnone
    exact not_mem_list_backups _ _
      (fsLookup_none_not_mem _ _ (hunchanged.trans hnone))
  · intro fs ps b rs hnd hmem hne
    rw [export_fs_eq]
    exact exportFsFold_lookup_mem ps fs b rs hnd hmem hne
  · intro fs ps b hb
    rw [export_fs_eq]
    exact exportFsFold_lookup_absent ps fs b hb

/-- Witness for C7 on a two-bucket mapping over the empty filesystem. -/
theorem C7_witness :
    ((([("b", ([] : List Json)), ("c", [Json.num 1])]).map Prod.fst).Nodup) ∧
    ("b", ([] : List Json)) ∈ [("b", ([] : List Json)), ("c", [Json.num 1])] ∧
    fsLookup ([] : List (String × String)) (backupFileName "b") = none ∧
    (fsLookup (export_lifecycle_policies []
        [("b", ([] : List Json)), ("c", [Json.num 1])]).fs (backupFileName "b") =
      fsLookup ([] : List (String × String)) (backupFileName "b") ∧
    "b" ∈ (export_lifecycle_policies []
      [("b", ([] : List Json)), ("c", [Json.num 1])]).skippedInfo ∧
    (export_lifecycle_policies []
      [("b", ([] : List Json)), ("c", [Json.num 1])]).errorLogs = [] ∧
    (fsLookup ([] : List (String × String)) (backupFileName "b") = none →
      backupFileName "b" ∉ list_backups (export_lifecycle_policies []
        [("b", ([] : List Json)), ("c", [Json.num 1])]).fs)) :=
  ⟨by simp, by simp, rfl,
    C7_export_skips_empty.1 [] [("b", ([] : List Json)), ("c", [Json.num 1])] "b"
      (by simp) (by simp)⟩

/-- C8: restoring a bucket whose backup file does not exist logs an error,
returns normally to the caller, and makes zero calls to the storage write
API. -/
theorem C8_restore_missing_file (fs : List (String × String)) (bucket_name : String)
    (h : fsLookup fs (backupFileName bucket_name) = none) :
    restore_lifecycle_policies fs bucket_name =
      { putCalls := [], loggedError := true, raised := false } := by
  unfold restore_lifecycle_policies
  rw [h]

/-- Witness for C8 on the empty filesystem. -/
theorem C8_witness :
    fsLookup ([] : List (String × String)) (backupFileName "missing-bucket") = none ∧
    restore_lifecycle_policies [] "missing-bucket" =
      { putCalls := [], loggedError := true, raised := false } :=
  ⟨rfl, C8_restore_missing_file [] "missing-bucket" rfl⟩

/-- C9: `get_lifecycle_policy` returns the empty rule list both on the
`NoSuchLifecycleConfiguration` error code (silently) and on every other
client error code (with a warning logged); no client error reaches the
caller, and a multi-bucket `process_buckets` pass records the failed
bucket as the zero-rule sentinel and continues with the remaining
buckets. -/
theorem C9_client_errors_become_zero_rules :
    get_lifecycle_policy
      (S3GetLifecycleResult.clientError "NoSuchLifecycleConfiguration") = ([], false) ∧
    (∀ code, code ≠ "NoSuchLifecycleConfiguration" →
      get_lifecycle_policy (S3GetLifecycleResult.clientError code) = ([], true)) ∧
    (∀ (remote : String → S3GetLifecycleResult) (b code : String)
      (rest : List String) (acc : List (List (String × CellValue))),
      remote b = S3GetLifecycleResult.clientError code →
      process_buckets remote (b :: rest) acc =
        process_buckets remote rest (acc ++ [noRulesRecord b])) := by
  refine ⟨rfl, ?_, ?_⟩
  · intro code h
    simp [get_lifecycle_policy, h]
  · intro remote b code rest acc h
    have hz : (get_lifecycle_policy (remote b)).1 = [] := by
      rcases eq_or_ne code "NoSuchLifecycleConfiguration" with he | he <;>
        simp [get_lifecycle_policy, h, he]
    simp [process_buckets, hz]

/-- Witness for C9 at an access-denied remote over one bucket. -/
theorem C9_witness :
    ("AccessDenied" : String) ≠ "NoSuchLifecycleConfiguration" ∧
    get_lifecycle_policy (S3GetLifecycleResult.clientError "AccessDenied") =
      ([], true) ∧
    (fun _ : String => S3GetLifecycleResult.clientError "AccessDenied") "b" =
      S3GetLifecycleResult.clientError "AccessDenied" ∧
    process_buckets (fun _ => S3GetLifecycleResult.clientError "AccessDenied")
      ["b", "c"] [] =
      process_buckets (fun _ => S3GetLifecycleResult.clientError "AccessDenied")
        ["c"] ([] ++ [noRulesRecord "b"]) :=
  ⟨by decide, C9_client_errors_become_zero_rules.2.1 "AccessDenied" (by decide),
    rfl, C9_client_errors_become_zero_rules.2.2
      (fun _ => S3GetLifecycleResult.clientError "AccessDenied") "b" "AccessDenied"
      ["c"] [] rfl⟩

/-- C10: `save_policies_csv` on an empty accumulator logs the warning and
returns with the filesystem untouched — no file created, truncated or
written — and the accumulator left unchanged. -/
theorem C10_save_empty_accumulator (filename : String)
    (fs : List (String × String)) :
    save_policies_csv [] filename fs = (fs, true, []) := rfl
